import Mathlib

/-!
Verification of the kubectl-mft local content-addressed store, its
garbage-collecting delete, the copy engine, and the detached-signature
subsystem (sign / verify), as a shallow embedding of the Go sources.

Conventions of the embedding:
* Go strings are `List Char`; raw byte contents are `List Nat`.
* Digests are an abstract type `D` with decidable equality; the digest
  computation, the textual rendering of a digest, SHA-256 and the ECDSA
  primitives are fields of an `Env D` parameter, since they are external
  library calls in the source.  Private and public ECDSA keys are opaque
  `Nat` handles.
* An OCI layout store (`oras-go` `oci.Store`) is a tag index (the
  `index.json` manifest list) plus a digest-keyed blob directory.
-/

/-- Go `string`, as a list of characters. -/
abbrev Str : Type := List Char

/-- Raw byte content, as a list of byte values. -/
abbrev Bytes : Type := List Nat

/-- OCI descriptor: the fields of `v1.Descriptor` the program reads
(mediaType, digest, artifactType); sizes and per-descriptor annotations
are never consulted by the verified operations. -/
structure Descriptor (D : Type) where
  mediaType : Str
  digest : D
  artifactType : Str
deriving DecidableEq

/-- OCI manifest (`v1.Manifest`): artifactType, optional config descriptor
(`none` models the zero-valued config whose digest renders as the empty
string), layer descriptors, optional subject and manifest annotations. -/
structure Manifest (D : Type) where
  artifactType : Str
  config : Option (Descriptor D)
  layers : List (Descriptor D)
  subject : Option (Descriptor D)
  annots : List (Str × Str)
deriving DecidableEq

/-- Content stored in a blob file: either raw bytes or a JSON manifest
document (a blob that `json.Unmarshal` decodes into `v1.Manifest`). -/
inductive Content (D : Type) where
  | bytes (bs : Bytes)
  | manifest (m : Manifest D)
deriving DecidableEq

/-- One entry of `index.json`'s `manifests` array: descriptor fields plus
the `org.opencontainers.image.ref.name` annotation (`[]` when untagged,
e.g. for signature manifests recorded as untagged roots). -/
structure IndexEntry (D : Type) where
  mediaType : Str
  artifactType : Str
  digest : D
  refName : Str
deriving DecidableEq

/-- An OCI layout directory: `index.json` plus the `blobs/` tree keyed by
digest. -/
structure Store (D : Type) where
  index : List (IndexEntry D)
  blobs : List (D × Content D)
deriving DecidableEq

/-- External primitives used by the program: digest computation over stored
content, the digest's textual form `algorithm:hex` and its two components,
SHA-256, and the ECDSA key/sign/verify operations (keys are opaque `Nat`
handles; signing takes a randomness argument because `ecdsa.SignASN1` draws
from `rand.Reader`). -/
structure Env (D : Type) where
  dg : Content D → D
  digestText : D → Str
  digestAlgorithm : D → Str
  digestEncoded : D → Str
  sha256 : Str → Bytes
  pubOf : Nat → Nat
  ecdsaSignASN1 : Nat → Bytes → Nat → Bytes
  ecdsaVerifyASN1 : Nat → Bytes → Bytes → Bool

/-- `artifactType` of packed kubectl-mft manifests (`internal/oci`). -/
def artifactTypeMFT : Str := (r"application/vnd.kubectl-mft.v1").data

/-- Media type of the packed manifest's single content layer. -/
def contentMediaType : Str := (r"application/vnd.kubectl-mft.content.v1+yaml").data

/-- `SignatureArtifactType` of `internal/signature`. -/
def SignatureArtifactType : Str := (r"application/vnd.kubectl-mft.signature.v1").data

/-- `SignatureMediaType` of the signature layer blob. -/
def SignatureMediaType : Str := (r"application/vnd.kubectl-mft.signature.v1+der").data

/-- `v1.MediaTypeImageManifest`. -/
def MediaTypeImageManifest : Str := (r"application/vnd.oci.image.manifest.v1+json").data

/-- `v1.MediaTypeEmptyJSON`, the media type of the `{ }` config blob that
`oras.PackManifest` attaches when no config is supplied. -/
def MediaTypeEmptyJSON : Str := (r"application/vnd.oci.empty.v1+json").data

/-- The two bytes of the empty JSON config blob. -/
def emptyJsonBytes : Bytes := [123, 125]

/-- The `org.opencontainers.image.ref.name` annotation key. -/
def refNameKey : Str := (r"org.opencontainers.image.ref.name").data

/-- The `org.opencontainers.image.created` annotation key added by
`oras.PackManifest`. -/
def createdKey : Str := (r"org.opencontainers.image.created").data

/-- The `org.opencontainers.image.title` annotation key. -/
def titleKey : Str := (r"org.opencontainers.image.title").data

/-- `DefaultRegistry = "local"` of `internal/oci`. -/
def DefaultRegistry : Str := (r"local").data

/-- Read the blob stored under digest `d` (`blobs/<alg>/<hex>` file). -/
def lookupBlobL {D : Type} [DecidableEq D] (blobs : List (D × Content D)) (d : D) :
    Option (Content D) :=
  (blobs.find? (fun p => p.1 = d)).map (fun p => p.2)

/-- Read the blob stored under digest `d` in a store. -/
def lookupBlob {D : Type} [DecidableEq D] (st : Store D) (d : D) : Option (Content D) :=
  lookupBlobL st.blobs d

/-- Tag resolution of `oci.Store.Resolve`: the tag map is built by walking
`index.json` in order, later entries overwriting earlier ones, so the last
entry carrying the ref name wins. -/
def resolveTag {D : Type} (st : Store D) (tag : Str) : Option (IndexEntry D) :=
  st.index.reverse.find? (fun e => e.refName = tag)

/-- Descriptor carried by an index entry. -/
def descriptorOf {D : Type} (e : IndexEntry D) : Descriptor D :=
  ⟨e.mediaType, e.digest, e.artifactType⟩

/-- Push of a blob: content-addressed writes are idempotent, re-writing
identical bytes is a no-op (the copy engine skips digests already
present). -/
def pushBlob {D : Type} [DecidableEq D] (E : Env D) (st : Store D) (c : Content D) :
    Store D :=
  if (lookupBlob st (E.dg c)).isSome then st
  else { st with blobs := st.blobs ++ [(E.dg c, c)] }

/-- Recording a pushed root manifest as an untagged `index.json` entry
(`oci.Store` auto-saves pushed manifests into the index). -/
def addRootEntry {D : Type} [DecidableEq D] (st : Store D) (mt at_ : Str) (d : D) :
    Store D :=
  if st.index.any (fun e => e.digest = d) then st
  else { st with index := st.index ++ [⟨mt, at_, d, []⟩] }

/-- `oci.Store.Tag`: upsert the index entry for a ref name, replacing any
prior entry under that name and subsuming an untagged entry carrying the
same digest. -/
def tagManifest {D : Type} [DecidableEq D] (st : Store D) (desc : Descriptor D)
    (tag : Str) : Store D :=
  { st with
    index :=
      st.index.filter
        (fun e => ¬ (e.refName = tag ∨ (e.refName = [] ∧ e.digest = desc.digest)))
      ++ [⟨desc.mediaType, desc.artifactType, desc.digest, tag⟩] }

/-- Successors of stored content for the copy engine's graph walk: nothing
for raw bytes; config, layers and subject for a manifest. -/
def successorDescs {D : Type} : Content D → List (Descriptor D)
  | .bytes _ => []
  | .manifest m => m.config.toList ++ m.layers ++ m.subject.toList

/-- Push one node during a copy: store the blob (idempotently) and, for a
manifest, record it in the destination index. -/
def pushNode {D : Type} [DecidableEq D] (E : Env D) (dest : Store D)
    (desc : Descriptor D) (c : Content D) : Store D :=
  let dest1 := pushBlob E dest c
  match c with
  | .manifest _ => addRootEntry dest1 desc.mediaType desc.artifactType desc.digest
  | .bytes _ => dest1

/-- Worklist formulation of `oras.Copy`'s recursive graph transfer: a
descriptor already present at the destination is skipped together with its
subtree; otherwise its bytes are fetched from the source, verified against
the expected digest (a mismatch is corruption and aborts), pushed, and its
successors are enqueued.  `none` models a failed copy (missing source
content, corruption, or exhausted fuel on a cyclic graph, which cannot
arise from genuine content addressing). -/
def copyWork {D : Type} [DecidableEq D] (E : Env D) (src : Store D) :
    Nat → Store D → List (Descriptor D) → Option (Store D)
  | _, dest, [] => some dest
  | 0, _, _ :: _ => none
  | Nat.succ fuel, dest, desc :: rest =>
    if (lookupBlob dest desc.digest).isSome then copyWork E src fuel dest rest
    else
      match lookupBlob src desc.digest with
      | none => none
      | some c =>
        if E.dg c = desc.digest then
          copyWork E src fuel (pushNode E dest desc c) (successorDescs c ++ rest)
        else none

/-- Fuel sufficient for any acyclic transfer out of `src`. -/
def copyFuel {D : Type} (src : Store D) : Nat :=
  2 + (src.blobs.map (fun p => 1 + (successorDescs p.2).length)).sum

/-- `oras.Copy src srcRef dest destRef`: resolve the reference in the
source, transfer the manifest and everything it points to, then tag the
manifest in the destination. -/
def orasCopy {D : Type} [DecidableEq D] (E : Env D) (src dest : Store D)
    (srcRef destRef : Str) : Option (Store D) :=
  match resolveTag src srcRef with
  | none => none
  | some e =>
    (copyWork E src (copyFuel src) dest [descriptorOf e]).map
      (fun d1 => tagManifest d1 (descriptorOf e) destRef)

/-- `oras.PackManifest` (v1.1) with `artifactType`, layers, optional
subject and caller annotations: attaches the empty JSON config blob,
stamps the `created` annotation when the caller did not, pushes config
blob and manifest, records the manifest in the index, and returns the
manifest's descriptor. -/
def packManifest {D : Type} [DecidableEq D] (E : Env D) (st : Store D) (aType : Str)
    (layers : List (Descriptor D)) (subject : Option (Descriptor D))
    (annots : List (Str × Str)) (createdAt : Str) : Store D × Descriptor D :=
  let cfgDesc : Descriptor D := ⟨MediaTypeEmptyJSON, E.dg (.bytes emptyJsonBytes), []⟩
  let st1 := pushBlob E st (.bytes emptyJsonBytes)
  let annots1 := if annots.any (fun p => p.1 = createdKey) then annots
                 else annots ++ [(createdKey, createdAt)]
  let m : Manifest D := ⟨aType, some cfgDesc, layers, subject, annots1⟩
  let st2 := pushBlob E st1 (.manifest m)
  let st3 := addRootEntry st2 MediaTypeImageManifest aType (E.dg (.manifest m))
  (st3, ⟨MediaTypeImageManifest, E.dg (.manifest m), aType⟩)

/-- `Repository.newFileStore` of `internal/oci`: a fresh staging file store
(the working directory is wiped first) holding the saved file's bytes as a
single content layer, a packed manifest carrying the title annotation, and
the tag pointing at that manifest. -/
def newFileStore {D : Type} [DecidableEq D] (E : Env D) (f : Bytes) (title : Str)
    (tag : Str) (createdAt : Str) : Store D :=
  let st0 : Store D := ⟨[], []⟩
  let contentDesc : Descriptor D := ⟨contentMediaType, E.dg (.bytes f), []⟩
  let st1 := pushBlob E st0 (.bytes f)
  let (st2, mdesc) :=
    packManifest E st1 artifactTypeMFT [contentDesc] none [(titleKey, title)] createdAt
  tagManifest st2 mdesc tag

/-- `Repository.Save` of `internal/oci`: wrap the file in a staging store,
then run the copy engine from the staging store into the local layout
store under the repository's tag. -/
def saveOp {D : Type} [DecidableEq D] (E : Env D) (st : Store D) (f : Bytes)
    (title : Str) (tag : Str) (createdAt : Str) : Option (Store D) :=
  orasCopy E (newFileStore E f title tag createdAt) st tag tag

/-- Failure cases of the local read operations. -/
inductive OpErr where
  | resolveFailed
  | fetchFailed
  | unmarshalFailed
  | notSingleLayer
deriving DecidableEq

/-- `Repository.Dump` of `internal/oci`: resolve the tag, fetch and decode
the manifest, insist on exactly one layer, and return that layer's bytes.
Reading a manifest blob as raw bytes yields its JSON serialization, which
the abstract digest environment does not render; the single-layer blob of
a packed manifest is always raw bytes, so `dumpOp` reports those directly
and maps a manifest-typed layer blob to its structural content. -/
def dumpOp {D : Type} [DecidableEq D] (st : Store D) (tag : Str) :
    Except OpErr (Content D) :=
  match resolveTag st tag with
  | none => .error .resolveFailed
  | some e =>
    match lookupBlob st e.digest with
    | none => .error .fetchFailed
    | some (.bytes _) => .error .unmarshalFailed
    | some (.manifest m) =>
      match m.layers with
      | [l] =>
        match lookupBlob st l.digest with
        | none => .error .fetchFailed
        | some c => .ok c
      | _ => .error .notSingleLayer

/-- `Repository.Path` of `internal/oci`: same resolution and single-layer
check as `Dump`, then the blob path
`baseDir/<name>/blobs/<algorithm>/<encoded>` of the sole layer's digest,
rendered as its path components. -/
def pathOp {D : Type} [DecidableEq D] (E : Env D) (baseDir name : Str) (st : Store D)
    (tag : Str) : Except OpErr (List Str) :=
  match resolveTag st tag with
  | none => .error .resolveFailed
  | some e =>
    match lookupBlob st e.digest with
    | none => .error .fetchFailed
    | some (.bytes _) => .error .unmarshalFailed
    | some (.manifest m) =>
      match m.layers with
      | [l] =>
        .ok [baseDir, name, (r"blobs").data, E.digestAlgorithm l.digest,
             E.digestEncoded l.digest]
      | _ => .error .notSingleLayer

/-- Failure cases of `Repository.Copy` of `internal/oci`. -/
inductive CopyErr where
  | srcNotFound
  | destExists
  | copyFailed
deriving DecidableEq

/-- `Repository.Copy` of `internal/oci`: resolve the source tag (error when
absent), refuse when the destination tag already resolves, otherwise run
the copy engine and tag the destination. -/
def ociCopy {D : Type} [DecidableEq D] (E : Env D) (src dest : Store D)
    (srcRef destRef : Str) : Except CopyErr (Store D) :=
  match resolveTag src srcRef with
  | none => .error .srcNotFound
  | some e =>
    match resolveTag dest destRef with
    | some _ => .error .destExists
    | none =>
      match (copyWork E src (copyFuel src) dest [descriptorOf e]).map
          (fun d1 => tagManifest d1 (descriptorOf e) destRef) with
      | none => .error .copyFailed
      | some st1 => .ok st1

/-- Digests referenced through one remaining index entry, exactly as
`getReferencedBlobs` collects them: the entry's own manifest digest
always; the manifest's layer digests and its non-empty config digest when
the manifest blob can be read and decoded (a missing or undecodable blob
contributes only the entry digest and is skipped). -/
def referencedOfEntry {D : Type} [DecidableEq D] (blobs : List (D × Content D))
    (e : IndexEntry D) : List D :=
  e.digest ::
    (match lookupBlobL blobs e.digest with
     | some (.manifest m) =>
       m.layers.map (fun l => l.digest) ++ (m.config.map (fun c => c.digest)).toList
     | _ => [])

/-- `getReferencedBlobs` of `internal/repository`: scan every index entry
(the index as rewritten after the tag removal) and collect the referenced
blob digests. -/
def getReferencedBlobs {D : Type} [DecidableEq D] (blobs : List (D × Content D))
    (idx : List (IndexEntry D)) : List D :=
  idx.flatMap (referencedOfEntry blobs)

/-- Outcome of `Repository.Delete` of `internal/repository`: `noop` is the
idempotent `(nil, nil)` return for an unresolved tag; `err` covers fetch
and decode failures; `ok st n` gives the surviving repository state
(`none` when the emptied repository directory was removed) and the
`RemovedBlobs` count of the result. -/
inductive DeleteOutcome (D : Type) where
  | noop
  | err
  | ok (st : Option (Store D)) (removedBlobs : Nat)
deriving DecidableEq

/-- `Repository.Delete` of `internal/repository`, the garbage-collecting
delete: resolve the tag (no-op when absent); fetch and decode the tagged
manifest; rewrite `index.json` without the tag's entries; recompute the
referenced set from the remaining entries; delete the deleted manifest's
layer blobs and its own blob when unreferenced; remove the repository
directory when the index became empty. -/
def deleteOp {D : Type} [DecidableEq D] (st : Store D) (tag : Str) : DeleteOutcome D :=
  match resolveTag st tag with
  | none => .noop
  | some e =>
    match lookupBlob st e.digest with
    | none => .err
    | some (.bytes _) => .err
    | some (.manifest m) =>
      let idx1 := st.index.filter (fun en => ¬ en.refName = tag)
      let referenced := getReferencedBlobs st.blobs idx1
      let orphaned :=
        (m.layers.map (fun l => l.digest)).filter (fun d => ¬ referenced.contains d)
        ++ (if referenced.contains e.digest then [] else [e.digest])
      let blobs1 := st.blobs.filter (fun p => ¬ orphaned.contains p.1)
      if idx1.isEmpty then .ok none orphaned.length
      else .ok (some ⟨idx1, blobs1⟩) orphaned.length

/-- The reachability test exactly as claim C1 words it: a digest is
protected when some remaining index entry's manifest references it through
its layer or config descriptors (subjects never protect, and — as the
claim is literally stated — being a remaining entry's own manifest digest
does not protect either). -/
def claimReferenced {D : Type} [DecidableEq D] (blobs : List (D × Content D))
    (idx : List (IndexEntry D)) (b : D) : Bool :=
  idx.any (fun e =>
    match lookupBlobL blobs e.digest with
    | some (.manifest m) =>
      (m.layers.map (fun l => l.digest)).contains b
        || ((m.config.map (fun c => c.digest)).toList.contains b)
    | _ => false)

/-- The reachability test the code implements: protected when the digest
is a remaining index entry's own manifest digest, or referenced through a
remaining entry's manifest layer or config descriptors. -/
def codeReferenced {D : Type} [DecidableEq D] (blobs : List (D × Content D))
    (idx : List (IndexEntry D)) (b : D) : Bool :=
  idx.any (fun e => e.digest = b) || claimReferenced blobs idx b

/-- `Repository.Delete` of `internal/oci` (the `oras`-backed variant used
during pull rollback): resolve the tag (no-op `(nil, nil)` when absent),
delete the manifest node from the store — its blob and its index entries —
and remove the repository directory when the index became empty. -/
def ociDeleteOp {D : Type} [DecidableEq D] (st : Store D) (tag : Str) :
    Option (Store D) × Bool :=
  match resolveTag st tag with
  | none => (some st, false)
  | some e =>
    let blobs1 := st.blobs.filter (fun p => ¬ p.1 = e.digest)
    let idx1 := st.index.filter (fun en => ¬ en.digest = e.digest)
    if idx1.isEmpty then (none, true) else (some ⟨idx1, blobs1⟩, true)

/-- `signDigest` of `internal/signature`: ECDSA over the SHA-256 hash of
the digest's textual representation (never of the manifest's raw bytes). -/
def signDigest {D : Type} (E : Env D) (key : Nat) (d : D) (rand : Nat) : Bytes :=
  E.ecdsaSignASN1 key (E.sha256 (E.digestText d)) rand

/-- `verifySignature` of `internal/signature`: ECDSA verification of a
signature against the SHA-256 hash of the digest's textual form. -/
def verifySignatureM {D : Type} (E : Env D) (pubKey : Nat) (d : D) (sig : Bytes) :
    Bool :=
  E.ecdsaVerifyASN1 pubKey (E.sha256 (E.digestText d)) sig

/-- `Signer.Sign` of `internal/signature`: resolve the tag, sign the
resolved descriptor's digest, push the signature bytes as a new blob, pack
the signature manifest (fixed signature artifact type, subject = the
resolved descriptor, the signature blob as sole layer) and return the new
store together with the signature manifest's digest. -/
def signOp {D : Type} [DecidableEq D] (E : Env D) (key : Nat) (st : Store D)
    (tag : Str) (rand : Nat) (createdAt : Str) : Option (Store D × D) :=
  match resolveTag st tag with
  | none => none
  | some e =>
    let sig := signDigest E key e.digest rand
    let sigDesc : Descriptor D := ⟨SignatureMediaType, E.dg (.bytes sig), []⟩
    let st1 := pushBlob E st (.bytes sig)
    let (st2, mdesc) :=
      packManifest E st1 SignatureArtifactType [sigDesc] (some (descriptorOf e)) []
        createdAt
    some (st2, mdesc.digest)

/-- `Predecessors` of the layout store: the recorded manifests whose
`subject` carries the given digest, presented through their index
descriptors (which may or may not carry the artifact type — the verifier
falls back to the manifest body when it does not). -/
def predecessorsOf {D : Type} [DecidableEq D] (st : Store D) (d : D) :
    List (Descriptor D) :=
  st.index.filterMap (fun e =>
    match lookupBlob st e.digest with
    | some (.manifest m) =>
      match m.subject with
      | some s => if s.digest = d then some (descriptorOf e) else none
      | none => none
    | _ => none)

/-- Result of `tryExtractSignature`: not a signature artifact at all; a
signature artifact whose signature could not be read; or the extracted
signature bytes (a signature layer that stores a manifest document reads
back as that document's raw serialization, which the abstract byte model
cannot render — the loop treats it as an unreadable signature, which such
bytes could never make verify). -/
inductive ExtractResult where
  | notSig
  | sigErr
  | sigOk (sig : Bytes)
deriving DecidableEq

/-- `tryExtractSignature` of `internal/signature`: classify a predecessor
by its descriptor's artifact type, falling back to the fetched manifest
body; for a signature manifest, fetch its first layer as the signature
bytes. -/
def tryExtractSignature {D : Type} [DecidableEq D] (st : Store D)
    (desc : Descriptor D) : ExtractResult :=
  let isSig := desc.artifactType = SignatureArtifactType
  if ¬ isSig ∧ ¬ desc.mediaType = MediaTypeImageManifest then .notSig
  else
    match lookupBlob st desc.digest with
    | none => if isSig then .sigErr else .notSig
    | some (.bytes _) => if isSig then .sigErr else .notSig
    | some (.manifest m) =>
      if ¬ isSig ∧ ¬ m.artifactType = SignatureArtifactType then .notSig
      else
        match m.layers with
        | [] => .sigErr
        | l :: _ =>
          match lookupBlob st l.digest with
          | none => .sigErr
          | some (.bytes sig) => .sigOk sig
          | some (.manifest _) => .sigErr

/-- Outcome of `Verifier.Verify`, separating the error taxonomy: missing
keys, unresolved tag, "no signature found" (NotFound) and "none of the
available public keys could verify" (VerificationFailed). -/
inductive VerifyOutcome where
  | ok
  | noKeys
  | resolveFailed
  | noSignature
  | verificationFailed
deriving DecidableEq

/-- The predecessor loop of `Verifier.Verify`, carrying the
`foundSignature` flag: skip non-signatures; remember unreadable
signatures; return success on the first (signature, key) pair that
validates; otherwise report NotFound or VerificationFailed according to
whether any signature artifact was seen. -/
def verifyLoop {D : Type} [DecidableEq D] (E : Env D) (keys : List Nat) (st : Store D)
    (d : D) : List (Descriptor D) → Bool → VerifyOutcome
  | [], found => if found then .verificationFailed else .noSignature
  | p :: ps, found =>
    match tryExtractSignature st p with
    | .notSig => verifyLoop E keys st d ps found
    | .sigErr => verifyLoop E keys st d ps true
    | .sigOk sig =>
      if keys.any (fun k => verifySignatureM E k d sig) then .ok
      else verifyLoop E keys st d ps true

/-- `Verifier.Verify` of `internal/signature`: demand at least one public
key, resolve the tag, enumerate predecessors and run the verification
loop. -/
def verifyOp {D : Type} [DecidableEq D] (E : Env D) (keys : List Nat) (st : Store D)
    (tag : Str) : VerifyOutcome :=
  if keys.isEmpty then .noKeys
  else
    match resolveTag st tag with
    | none => .resolveFailed
    | some e => verifyLoop E keys st e.digest (predecessorsOf st e.digest) false

/-- The signatures `Verify` discovers and can read: the successfully
extracted signature bytes of the signature-typed predecessors. -/
def discoveredSigs {D : Type} [DecidableEq D] (st : Store D) (d : D) : List Bytes :=
  (predecessorsOf st d).filterMap (fun p =>
    match tryExtractSignature st p with
    | .sigOk sig => some sig
    | _ => none)

/-- Modelled from the spec: `oci.Repository.Exists`, whose implementation
is not under the sources (only its caller `runPull` is) — per the spec the
pre-pull check is whether "the tag did not exist locally before the pull",
i.e. whether the tag resolves in the local layout. -/
def existsLocally {D : Type} (st : Store D) (tag : Str) : Bool :=
  (resolveTag st tag).isSome

/-- Result of a `pull` invocation: whether it succeeded, whether the
pulled data was deleted by the verification-failure rollback, and the
final local state (`none` when the rollback removed the whole repository
directory). -/
structure PullResult (D : Type) where
  success : Bool
  deletedPulled : Bool
  finalState : Option (Store D)
deriving DecidableEq

/-- `runPull` with `handleVerifyFailure` and `deletePulledData` of
`cmd/pull.go`: record whether the tag resolved locally before the pull;
pull; unless verification is skipped, fail when no public keys exist or
when `Verify` fails — and in that case delete the pulled data only when
the tag did not exist locally before the pull, leaving a pre-existing
local copy untouched.  `none` models a failed pull transfer. -/
def runPullOp {D : Type} [DecidableEq D] (E : Env D) (keys : List Nat)
    (remote st : Store D) (tag : Str) (skipVerify : Bool) : Option (PullResult D) :=
  let existedBefore := existsLocally st tag
  match orasCopy E remote st tag tag with
  | none => none
  | some st1 =>
    if skipVerify then some ⟨true, false, some st1⟩
    else
      let verifyFailed : Bool :=
        if keys.isEmpty then true else ¬ verifyOp E keys st1 tag = .ok
      if verifyFailed then
        if existedBefore then some ⟨false, false, some st1⟩
        else
          let (st2, did) := ociDeleteOp st1 tag
          some ⟨false, did, st2⟩
      else some ⟨true, false, some st1⟩

/-- `normalizeTag` of `internal/oci`: a tag without a slash gets the
default registry prefix, `myapp:v1` becoming `local/myapp:v1`; a tag
containing a slash is left unchanged. -/
def normalizeTagM (tag : Str) : Str :=
  if tag.contains '/' then tag else DefaultRegistry ++ '/' :: tag

/-- `parseReference` of `internal/oci`: normalize, then hand the result to
the `oras` reference parser (an external parser, abstracted as `parse`). -/
def parseReferenceM {R : Type} (parse : Str → R) (tag : Str) : R :=
  parse (normalizeTagM tag)

/-- The packed manifest `Repository.Save` produces for content `f`: the
kubectl-mft artifact type, the empty JSON config, the single content
layer, no subject, and the title plus created-date annotations. -/
def packedManifest {D : Type} (E : Env D) (f : Bytes) (title createdAt : Str) :
    Manifest D :=
  ⟨artifactTypeMFT,
   some ⟨MediaTypeEmptyJSON, E.dg (.bytes emptyJsonBytes), []⟩,
   [⟨contentMediaType, E.dg (.bytes f), []⟩],
   none,
   [(titleKey, title), (createdKey, createdAt)]⟩

/-- The signature manifest `Signer.Sign` packs for the resolved entry `e`:
the fixed signature artifact type, the empty JSON config, the signature
blob as sole layer, the signed descriptor as subject. -/
def signatureManifest {D : Type} (E : Env D) (e : IndexEntry D) (key rand : Nat)
    (createdAt : Str) : Manifest D :=
  ⟨SignatureArtifactType,
   some ⟨MediaTypeEmptyJSON, E.dg (.bytes emptyJsonBytes), []⟩,
   [⟨SignatureMediaType, E.dg (.bytes (signDigest E key e.digest rand)), []⟩],
   some (descriptorOf e),
   [(createdKey, createdAt)]⟩

/-- The digests the deleted manifest formerly referenced and `Delete`
considers for removal: the manifest's own blob and its layer blobs. -/
def deletedCandidates {D : Type} (e : IndexEntry D) (m : Manifest D) : List D :=
  e.digest :: m.layers.map (fun l => l.digest)

/-- The index entries that remain once the tag's entries are removed. -/
def remainingIndex {D : Type} (st : Store D) (tag : Str) : List (IndexEntry D) :=
  st.index.filter (fun en => ¬ en.refName = tag)

/-- Digests present in a blob directory. -/
def keysOf {D : Type} (blobs : List (D × Content D)) : List D :=
  blobs.map (fun p => p.1)

/-- Witness-only instantiation of the abstract primitives over `D = Nat`:
a digest function separating the byte and manifest cases well enough for
the concrete witness stores, and a symbolic ECDSA in which a signature is
the signing key's handle prepended to the hashed message. -/
def toyEnv : Env Nat where
  dg := fun c =>
    match c with
    | .bytes bs => 2 * bs.foldl (fun a b => a * 64 + b + 1) 0
    | .manifest m =>
      2 * ((m.layers.map (fun l => l.digest)).foldl (fun a x => a * 64 + x + 1)
        (((m.subject.map (fun s => s.digest)).getD 0) * 7
          + m.annots.length
          + (if m.artifactType = SignatureArtifactType then 3 else 5))) + 1
  digestText := fun d => Nat.toDigits 10 d
  digestAlgorithm := fun _ => (r"sha256").data
  digestEncoded := fun d => Nat.toDigits 16 d
  sha256 := fun s => s.map Char.toNat
  pubOf := fun k => k + 1000
  ecdsaSignASN1 := fun k h _ => k :: h
  ecdsaVerifyASN1 := fun p h s =>
    match s with
    | [] => false
    | k :: h1 => (k + 1000 == p) && (h1 == h)

/-- The orphan list `Delete` computes for a deleted manifest `m` resolved
from entry `e`: its unreferenced layer digests, then its own digest when
unreferenced. -/
def orphanedBlobs {D : Type} [DecidableEq D] (st : Store D) (tag : Str)
    (e : IndexEntry D) (m : Manifest D) : List D :=
  (m.layers.map (fun l => l.digest)).filter
    (fun d => ¬ (getReferencedBlobs st.blobs (remainingIndex st tag)).contains d)
  ++ (if (getReferencedBlobs st.blobs (remainingIndex st tag)).contains e.digest
      then [] else [e.digest])

/-- Concrete scenario for the garbage collector: a repository in which two
tags `a` and `b` point at the same manifest (the state a same-repository
copy produces), whose single layer blob is also stored. -/
def gcManifest : Manifest Nat :=
  ⟨artifactTypeMFT, none, [⟨contentMediaType, 16, []⟩], none, []⟩

/-- The two-tags-one-manifest repository state. -/
def gcStore : Store Nat :=
  ⟨[⟨MediaTypeImageManifest, artifactTypeMFT, 675, (r"a").data⟩,
    ⟨MediaTypeImageManifest, artifactTypeMFT, 675, (r"b").data⟩],
   [(675, Content.manifest gcManifest), (16, Content.bytes [7])]⟩

/-! Store lemmas shared by the claim theorems. -/

theorem lookupBlobL_append {D : Type} [DecidableEq D] (b1 b2 : List (D × Content D))
    (d : D) : lookupBlobL (b1 ++ b2) d = (lookupBlobL b1 d).or (lookupBlobL b2 d) := by
  unfold lookupBlobL
  rw [List.find?_append]
  cases b1.find? (fun p => decide (p.1 = d)) <;> simp

theorem lookupBlob_push_ne {D : Type} [DecidableEq D] (E : Env D) (st : Store D)
    (c : Content D) (d : D) (h : ¬ d = E.dg c) :
    lookupBlob (pushBlob E st c) d = lookupBlob st d := by
  unfold pushBlob
  by_cases hp : (lookupBlob st (E.dg c)).isSome
  · simp [hp]
  · simp only [hp, if_false, Bool.false_eq_true]
    show lookupBlobL (st.blobs ++ [(E.dg c, c)]) d = lookupBlobL st.blobs d
    rw [lookupBlobL_append]
    have : lookupBlobL [(E.dg c, c)] d = none := by
      have hne : ¬ E.dg c = d := fun h1 => h h1.symm
      simp [lookupBlobL, List.find?, hne]
    rw [this]
    cases lookupBlobL st.blobs d <;> simp

theorem lookupBlob_push_fresh {D : Type} [DecidableEq D] (E : Env D) (st : Store D)
    (c : Content D) (h : lookupBlob st (E.dg c) = none) :
    lookupBlob (pushBlob E st c) (E.dg c) = some c := by
  unfold pushBlob
  simp only [h, Option.isSome_none, Bool.false_eq_true, if_false]
  show lookupBlobL (st.blobs ++ [(E.dg c, c)]) (E.dg c) = some c
  rw [lookupBlobL_append]
  have h0 : lookupBlobL st.blobs (E.dg c) = none := h
  rw [h0]
  simp [lookupBlobL, List.find?]

theorem lookupBlob_push_mono {D : Type} [DecidableEq D] (E : Env D) (st : Store D)
    (c c0 : Content D) (d : D) (h : lookupBlob st d = some c0) :
    lookupBlob (pushBlob E st c) d = some c0 := by
  unfold pushBlob
  by_cases hp : (lookupBlob st (E.dg c)).isSome
  · simp [hp, h]
  · simp only [hp, if_false, Bool.false_eq_true]
    show lookupBlobL (st.blobs ++ [(E.dg c, c)]) d = some c0
    rw [lookupBlobL_append]
    have h0 : lookupBlobL st.blobs d = some c0 := h
    rw [h0]
    simp

theorem lookupBlob_addRootEntry {D : Type} [DecidableEq D] (st : Store D)
    (mt at_ : Str) (d x : D) :
    lookupBlob (addRootEntry st mt at_ d) x = lookupBlob st x := by
  unfold addRootEntry
  by_cases hp : st.index.any (fun e => decide (e.digest = d)) <;> simp [hp, lookupBlob]

theorem lookupBlob_tagManifest {D : Type} [DecidableEq D] (st : Store D)
    (desc : Descriptor D) (tag : Str) (x : D) :
    lookupBlob (tagManifest st desc tag) x = lookupBlob st x := rfl

theorem resolveTag_tagManifest {D : Type} [DecidableEq D] (st : Store D)
    (desc : Descriptor D) (tag : Str) :
    resolveTag (tagManifest st desc tag) tag
      = some ⟨desc.mediaType, desc.artifactType, desc.digest, tag⟩ := by
  unfold resolveTag tagManifest
  simp [List.find?]

theorem resolveTag_remainingIndex {D : Type} [DecidableEq D] (st : Store D) (tag : Str)
    (blobs : List (D × Content D)) :
    resolveTag ⟨remainingIndex st tag, blobs⟩ tag = none := by
  unfold resolveTag remainingIndex
  apply List.find?_eq_none.mpr
  intro e he
  rw [List.mem_reverse] at he
  have := (List.mem_filter.mp he).2
  simpa using this

theorem mem_getReferencedBlobs {D : Type} [DecidableEq D] (blobs : List (D × Content D))
    (idx : List (IndexEntry D)) (b : D) :
    b ∈ getReferencedBlobs blobs idx ↔ codeReferenced blobs idx b = true := by
  unfold getReferencedBlobs codeReferenced claimReferenced referencedOfEntry
  simp only [List.mem_flatMap, List.any_eq_true, Bool.or_eq_true, decide_eq_true_eq]
  constructor
  · rintro ⟨e, he, hb⟩
    rcases List.mem_cons.mp hb with h1 | h2
    · exact Or.inl ⟨e, he, h1.symm⟩
    · right
      refine ⟨e, he, ?_⟩
      cases hl : lookupBlobL blobs e.digest with
      | none => rw [hl] at h2; simp at h2
      | some c =>
        cases c with
        | bytes bs => rw [hl] at h2; simp at h2
        | manifest m =>
          rw [hl] at h2
          simp only [List.mem_append] at h2
          simp only [Bool.or_eq_true]
          rcases h2 with h2 | h2
          · exact Or.inl (by simpa using h2)
          · exact Or.inr (by simpa using h2)
  · rintro (⟨e, he, hd⟩ | ⟨e, he, hm⟩)
    · exact ⟨e, he, by rw [hd]; exact List.mem_cons_self _ _⟩
    · refine ⟨e, he, ?_⟩
      cases hl : lookupBlobL blobs e.digest with
      | none => rw [hl] at hm; simp at hm
      | some c =>
        cases c with
        | bytes bs => rw [hl] at hm; simp at hm
        | manifest m =>
          rw [hl] at hm
          have hm2 : ((List.map (fun l => l.digest) m.layers).contains b
              || (Option.map (fun l => l.digest) m.config).toList.contains b) = true := hm
          simp only [Bool.or_eq_true] at hm2
          apply List.mem_cons_of_mem
          simp only [List.mem_append]
          rcases hm2 with hm2 | hm2
          · exact Or.inl (by simpa using hm2)
          · exact Or.inr (by simpa using hm2)

theorem contains_getReferencedBlobs {D : Type} [DecidableEq D]
    (blobs : List (D × Content D)) (idx : List (IndexEntry D)) (b : D) :
    (getReferencedBlobs blobs idx).contains b = codeReferenced blobs idx b := by
  cases hcb : codeReferenced blobs idx b with
  | true =>
    have hmem : b ∈ getReferencedBlobs blobs idx := (mem_getReferencedBlobs _ _ _).mpr hcb
    simpa using hmem
  | false =>
    have hnm : ¬ b ∈ getReferencedBlobs blobs idx := by
      intro h
      rw [mem_getReferencedBlobs] at h
      rw [h] at hcb
      exact Bool.true_eq_false.mp hcb
    simpa using hnm

theorem contains_orphaned {D : Type} [DecidableEq D] (referenced : List D)
    (e : IndexEntry D) (m : Manifest D) (b : D) (hb : b ∈ deletedCandidates e m) :
    (((m.layers.map (fun l => l.digest)).filter (fun d => ¬ referenced.contains d)
      ++ (if referenced.contains e.digest then [] else [e.digest])).contains b)
    = ! referenced.contains b := by
  cases hr : referenced.contains b with
  | true =>
    simp only [Bool.not_true]
    have : ¬ b ∈ ((m.layers.map (fun l => l.digest)).filter
        (fun d => ¬ referenced.contains d)
        ++ (if referenced.contains e.digest then [] else [e.digest])) := by
      intro hmem
      rcases List.mem_append.mp hmem with h1 | h1
      · have := (List.mem_filter.mp h1).2
        simp only [decide_eq_true_eq] at this
        exact this hr
      · by_cases hc : referenced.contains e.digest = true
        · rw [if_pos hc] at h1
          simp at h1
        · rw [if_neg hc] at h1
          have hbe : b = e.digest := by simpa using h1
          rw [hbe] at hr
          exact hc hr
    simpa using this
  | false =>
    simp only [Bool.not_false]
    have hrm : ¬ b ∈ referenced := by simpa using hr
    have : b ∈ ((m.layers.map (fun l => l.digest)).filter
        (fun d => ¬ referenced.contains d)
        ++ (if referenced.contains e.digest then [] else [e.digest])) := by
      rcases List.mem_cons.mp hb with hb1 | hb2
      · apply List.mem_append.mpr
        right
        have hc : ¬ referenced.contains e.digest = true := by
          rw [← hb1]
          simpa using hrm
        rw [if_neg hc]
        simp [hb1]
      · apply List.mem_append.mpr
        left
        apply List.mem_filter.mpr
        exact ⟨hb2, by simpa using hrm⟩
    simpa using this

theorem mem_keysOf {D : Type} (blobs : List (D × Content D)) (b : D) :
    b ∈ keysOf blobs ↔ ∃ c, (b, c) ∈ blobs := by
  unfold keysOf
  rw [List.mem_map]
  constructor
  · rintro ⟨p, hp, hb⟩
    refine ⟨p.2, ?_⟩
    rw [← hb]
    simpa using hp
  · rintro ⟨c, hc⟩
    exact ⟨(b, c), hc, rfl⟩

theorem deleteOp_resolved {D : Type} [DecidableEq D] (st : Store D) (tag : Str)
    (e : IndexEntry D) (m : Manifest D)
    (hres : resolveTag st tag = some e)
    (hman : lookupBlob st e.digest = some (.manifest m)) :
    deleteOp st tag =
      (if (remainingIndex st tag).isEmpty then
        DeleteOutcome.ok none (orphanedBlobs st tag e m).length
      else
        DeleteOutcome.ok
          (some ⟨remainingIndex st tag,
                 st.blobs.filter (fun p => ¬ (orphanedBlobs st tag e m).contains p.1)⟩)
          (orphanedBlobs st tag e m).length) := by
  unfold deleteOp
  simp only [hres, hman]
  rfl

/-- C1 (amended): after the tag's index entries are removed, each blob the
deleted manifest formerly referenced (its own blob and each layer blob) is
deleted from disk if and only if it is not protected by the remaining
index — where a digest is protected when it is a remaining index entry's
own manifest digest, or referenced by a remaining entry's manifest through
its layer or config descriptors (subject references never protect); and
when no index entries remain the entire repository directory is
removed. -/
theorem mft_delete_gc_amended {D : Type} [DecidableEq D] (st : Store D) (tag : Str)
    (e : IndexEntry D) (m : Manifest D)
    (hres : resolveTag st tag = some e)
    (hman : lookupBlob st e.digest = some (.manifest m)) :
    ∃ ost n, deleteOp st tag = .ok ost n
      ∧ (ost = none ↔ remainingIndex st tag = [])
      ∧ ∀ st1, ost = some st1 →
          ∀ b, b ∈ deletedCandidates e m → b ∈ keysOf st.blobs →
            (¬ b ∈ keysOf st1.blobs ↔
              codeReferenced st.blobs (remainingIndex st tag) b = false) := by
  rw [deleteOp_resolved st tag e m hres hman]
  by_cases hemp : (remainingIndex st tag).isEmpty = true
  · refine ⟨none, (orphanedBlobs st tag e m).length, by rw [if_pos hemp], ?_, ?_⟩
    · simp only [true_iff]
      exact List.isEmpty_iff.mp hemp
    · intro st1 h
      exact absurd h (by simp)
  · refine ⟨some ⟨remainingIndex st tag,
        st.blobs.filter (fun p => ¬ (orphanedBlobs st tag e m).contains p.1)⟩,
      (orphanedBlobs st tag e m).length, by rw [if_neg hemp], ?_, ?_⟩
    · constructor
      · intro h
        exact absurd h (by simp)
      · intro h
        exact absurd (List.isEmpty_iff.mpr h) hemp
    · intro st1 hst1 b hb hbk
      have hst1e : st1 = ⟨remainingIndex st tag,
          st.blobs.filter (fun p => ¬ (orphanedBlobs st tag e m).contains p.1)⟩ :=
        (Option.some.injEq _ _).mp hst1.symm
      subst hst1e
      have hkey : b ∈ keysOf (st.blobs.filter
          (fun p => ¬ (orphanedBlobs st tag e m).contains p.1)) ↔
          (b ∈ keysOf st.blobs ∧ ¬ (orphanedBlobs st tag e m).contains b = true) := by
        rw [mem_keysOf]
        constructor
        · rintro ⟨c, hc⟩
          have h1 := List.mem_filter.mp hc
          refine ⟨(mem_keysOf _ _).mpr ⟨c, h1.1⟩, ?_⟩
          have := h1.2
          simpa using this
        · rintro ⟨h1, h2⟩
          rcases (mem_keysOf _ _).mp h1 with ⟨c, hc⟩
          exact ⟨c, List.mem_filter.mpr ⟨hc, by simpa using h2⟩⟩
      have horph : (orphanedBlobs st tag e m).contains b
          = ! (getReferencedBlobs st.blobs (remainingIndex st tag)).contains b :=
        contains_orphaned _ e m b hb
      have hcref : (getReferencedBlobs st.blobs (remainingIndex st tag)).contains b
          = codeReferenced st.blobs (remainingIndex st tag) b :=
        contains_getReferencedBlobs _ _ _
      constructor
      · intro hnot
        have : ¬ (b ∈ keysOf st.blobs ∧
            ¬ (orphanedBlobs st tag e m).contains b = true) := fun hc => hnot (hkey.mpr hc)
        have horphb : (orphanedBlobs st tag e m).contains b = true := by
          by_contra hno
          exact this ⟨hbk, hno⟩
        rw [horph, hcref] at horphb
        cases hv : codeReferenced st.blobs (remainingIndex st tag) b with
        | false => rfl
        | true => rw [hv] at horphb; simp at horphb
      · intro hv
        intro hmem
        have := (hkey.mp hmem).2
        rw [horph, hcref, hv] at this
        simp at this

/-- C1 counterexample: deleting tag `a` in a repository where tags `a` and
`b` both point at the same manifest leaves the manifest's own blob (digest
675, a member of the deleted manifest's former blobs) on disk, although no
remaining index entry's manifest references it through layer or config
descriptors — the code also protects a blob that is a remaining entry's
own manifest digest, so the claim's stated "if and only if" fails at this
input. -/
theorem mft_delete_gc_claim_cex :
    resolveTag gcStore ((r"a").data)
        = some ⟨MediaTypeImageManifest, artifactTypeMFT, 675, (r"a").data⟩
      ∧ lookupBlob gcStore 675 = some (Content.manifest gcManifest)
      ∧ 675 ∈ deletedCandidates
          ⟨MediaTypeImageManifest, artifactTypeMFT, 675, (r"a").data⟩ gcManifest
      ∧ 675 ∈ keysOf gcStore.blobs
      ∧ claimReferenced gcStore.blobs (remainingIndex gcStore ((r"a").data)) 675 = false
      ∧ deleteOp gcStore ((r"a").data)
          = DeleteOutcome.ok
              (some ⟨[⟨MediaTypeImageManifest, artifactTypeMFT, 675, (r"b").data⟩],
                     gcStore.blobs⟩) 0 := by
  decide

/-- Witness for C1's amended theorem at the two-tags-one-manifest store:
the hypotheses hold at this input and the theorem applies. -/
theorem mft_delete_gc_amended_witness :
    (resolveTag gcStore ((r"a").data)
        = some ⟨MediaTypeImageManifest, artifactTypeMFT, 675, (r"a").data⟩
      ∧ lookupBlob gcStore 675 = some (Content.manifest gcManifest))
    ∧ (∃ ost n, deleteOp gcStore ((r"a").data) = .ok ost n
        ∧ (ost = none ↔ remainingIndex gcStore ((r"a").data) = [])
        ∧ ∀ st1, ost = some st1 →
            ∀ b, b ∈ deletedCandidates
                ⟨MediaTypeImageManifest, artifactTypeMFT, 675, (r"a").data⟩ gcManifest →
              b ∈ keysOf gcStore.blobs →
              (¬ b ∈ keysOf st1.blobs ↔
                codeReferenced gcStore.blobs
                  (remainingIndex gcStore ((r"a").data)) b = false)) :=
  ⟨⟨by decide, by decide⟩,
   mft_delete_gc_amended gcStore ((r"a").data)
     ⟨MediaTypeImageManifest, artifactTypeMFT, 675, (r"a").data⟩ gcManifest
     (by decide) (by decide)⟩

/-- C7: Delete is idempotent at tag granularity — a tag that does not
resolve makes `Delete` succeed as a no-op returning the `(nil, nil)`
result and changing nothing, and after a successful delete the same tag no
longer resolves, so deleting the same tag twice succeeds the second time
as that no-op. -/
theorem mft_delete_idempotent {D : Type} [DecidableEq D] (st : Store D) (tag : Str) :
    (resolveTag st tag = none → deleteOp st tag = .noop)
    ∧ (∀ st1 n, deleteOp st tag = .ok (some st1) n → deleteOp st1 tag = .noop) := by
  constructor
  · intro h
    unfold deleteOp
    rw [h]
  · intro st1 n h
    cases hres : resolveTag st tag with
    | none =>
      have h0 : deleteOp st tag = .noop := by unfold deleteOp; rw [hres]
      rw [h0] at h
      exact absurd h (by simp)
    | some e =>
      cases hman : lookupBlob st e.digest with
      | none =>
        have h0 : deleteOp st tag = .err := by unfold deleteOp; simp only [hres, hman]
        rw [h0] at h
        exact absurd h (by simp)
      | some c =>
        cases c with
        | bytes bs =>
          have h0 : deleteOp st tag = .err := by unfold deleteOp; simp only [hres, hman]
          rw [h0] at h
          exact absurd h (by simp)
        | manifest m =>
          rw [deleteOp_resolved st tag e m hres hman] at h
          by_cases hemp : (remainingIndex st tag).isEmpty = true
          · rw [if_pos hemp] at h
            exact absurd h (by simp)
          · rw [if_neg hemp] at h
            injection h with h1 h2
            injection h1 with h3
            have hnone : resolveTag st1 tag = none := by
              rw [← h3]
              exact resolveTag_remainingIndex st tag _
            unfold deleteOp
            rw [hnone]

/-- Witness for C7: deleting an absent tag in an empty repository is the
no-op, and re-deleting tag `a` after a successful delete is the no-op. -/
theorem mft_delete_idempotent_witness :
    deleteOp (⟨[], []⟩ : Store Nat) ((r"missing").data) = .noop
    ∧ deleteOp
        (⟨[⟨MediaTypeImageManifest, artifactTypeMFT, 675, (r"b").data⟩],
          gcStore.blobs⟩ : Store Nat) ((r"a").data) = .noop :=
  ⟨(mft_delete_idempotent (⟨[], []⟩ : Store Nat) ((r"missing").data)).1 (by decide),
   (mft_delete_idempotent gcStore ((r"a").data)).2
     ⟨[⟨MediaTypeImageManifest, artifactTypeMFT, 675, (r"b").data⟩], gcStore.blobs⟩ 0
     (by decide)⟩

/-- C9: a tag without a slash is normalized to `local/<tag>` before
parsing, so it parses to exactly the same reference (hence the same
repository) as the explicitly prefixed string, for any reference parser;
a tag containing a slash is parsed unchanged. -/
theorem tag_normalization {R : Type} (parse : Str → R) (tag : Str) :
    (tag.contains '/' = false →
      parseReferenceM parse tag = parseReferenceM parse (DefaultRegistry ++ '/' :: tag))
    ∧ (tag.contains '/' = true → parseReferenceM parse tag = parse tag) := by
  constructor
  · intro h
    unfold parseReferenceM normalizeTagM
    have h2 : (DefaultRegistry ++ '/' :: tag).contains '/' = true := by
      simp
    rw [if_neg (by rw [h]; exact Bool.false_ne_true), if_pos h2]
  · intro h
    unfold parseReferenceM normalizeTagM
    rw [if_pos h]

/-- Witness for C9 at `app:v1` with the identity parser: both spellings
normalize to the same reference string, and a slashed tag is unchanged. -/
theorem tag_normalization_witness :
    (parseReferenceM (fun s => s) ((r"app:v1").data)
       = parseReferenceM (fun s => s) (DefaultRegistry ++ '/' :: (r"app:v1").data))
    ∧ parseReferenceM (fun s => s) ((r"docker.io/user/app:v1").data)
       = (r"docker.io/user/app:v1").data :=
  ⟨(tag_normalization (fun s => s) ((r"app:v1").data)).1 (by decide),
   (tag_normalization (fun s => s) ((r"docker.io/user/app:v1").data)).2 (by decide)⟩

/-- C10: `Dump` and `Path` succeed only on single-layer manifests — any
resolved manifest whose layer list does not have exactly one descriptor
makes both return the "expected a single layer in the manifest" error,
and on a single-layer manifest the content returned (or the blob path
computed) is that of the sole layer. -/
theorem dump_path_single_layer {D : Type} [DecidableEq D] (E : Env D)
    (baseDir name : Str) (st : Store D) (tag : Str) (e : IndexEntry D)
    (m : Manifest D)
    (hres : resolveTag st tag = some e)
    (hman : lookupBlob st e.digest = some (.manifest m)) :
    (¬ m.layers.length = 1 →
      dumpOp st tag = .error .notSingleLayer
      ∧ pathOp E baseDir name st tag = .error .notSingleLayer)
    ∧ (∀ l, m.layers = [l] →
        (∀ c, lookupBlob st l.digest = some c → dumpOp st tag = .ok c)
        ∧ pathOp E baseDir name st tag
            = .ok [baseDir, name, (r"blobs").data, E.digestAlgorithm l.digest,
                   E.digestEncoded l.digest]) := by
  constructor
  · intro hlen
    cases hl : m.layers with
    | nil =>
      constructor
      · unfold dumpOp
        simp only [hres, hman, hl]
      · unfold pathOp
        simp only [hres, hman, hl]
    | cons l1 rest =>
      cases rest with
      | nil => exact absurd (by rw [hl]; rfl) hlen
      | cons l2 rest2 =>
        constructor
        · unfold dumpOp
          simp only [hres, hman, hl]
        · unfold pathOp
          simp only [hres, hman, hl]
  · intro l hl
    constructor
    · intro c hc
      unfold dumpOp
      simp only [hres, hman, hl, hc]
    · unfold pathOp
      simp only [hres, hman, hl]

/-- Witness for C10: in a store holding a two-layer manifest under `two`
and the single-layer `gcManifest` under `a` and `b`, `Dump` and `Path`
err on the former and return the sole layer's content and path on the
latter. -/
theorem dump_path_single_layer_witness :
    (dumpOp
        (⟨[⟨MediaTypeImageManifest, artifactTypeMFT, 99, (r"two").data⟩],
          [(99, Content.manifest
              ⟨artifactTypeMFT, none,
               [⟨contentMediaType, 16, []⟩, ⟨contentMediaType, 18, []⟩],
               none, []⟩)]⟩ : Store Nat) ((r"two").data)
       = .error .notSingleLayer
      ∧ pathOp toyEnv ((r"base").data) ((r"local/app").data)
          (⟨[⟨MediaTypeImageManifest, artifactTypeMFT, 99, (r"two").data⟩],
            [(99, Content.manifest
                ⟨artifactTypeMFT, none,
                 [⟨contentMediaType, 16, []⟩, ⟨contentMediaType, 18, []⟩],
                 none, []⟩)]⟩ : Store Nat) ((r"two").data)
        = .error .notSingleLayer)
    ∧ (dumpOp gcStore ((r"a").data) = .ok (Content.bytes [7])
      ∧ pathOp toyEnv ((r"base").data) ((r"local/app").data) gcStore ((r"a").data)
          = .ok [(r"base").data, (r"local/app").data, (r"blobs").data,
                 toyEnv.digestAlgorithm 16, toyEnv.digestEncoded 16]) :=
  ⟨(dump_path_single_layer toyEnv ((r"base").data) ((r"local/app").data)
      (⟨[⟨MediaTypeImageManifest, artifactTypeMFT, 99, (r"two").data⟩],
        [(99, Content.manifest
            ⟨artifactTypeMFT, none,
             [⟨contentMediaType, 16, []⟩, ⟨contentMediaType, 18, []⟩],
             none, []⟩)]⟩ : Store Nat) ((r"two").data)
      ⟨MediaTypeImageManifest, artifactTypeMFT, 99, (r"two").data⟩
      ⟨artifactTypeMFT, none,
       [⟨contentMediaType, 16, []⟩, ⟨contentMediaType, 18, []⟩], none, []⟩
      (by decide) (by decide)).1 (by decide),
   by
     have h := (dump_path_single_layer toyEnv ((r"base").data) ((r"local/app").data)
       gcStore ((r"a").data)
       ⟨MediaTypeImageManifest, artifactTypeMFT, 675, (r"a").data⟩ gcManifest
       (by decide) (by decide)).2 ⟨contentMediaType, 16, []⟩ (by decide)
     exact ⟨h.1 (Content.bytes [7]) (by decide), h.2⟩⟩

/-- C8 (amended): provided the source tag resolves in the source
repository, a `Copy` whose destination tag already resolves returns the
"destination tag already exists" conflict error before any transfer — the
operation yields no new destination state, so the destination's tag
mapping and blobs are unchanged. -/
theorem copy_conflict {D : Type} [DecidableEq D] (E : Env D) (src dest : Store D)
    (srcRef destRef : Str) (e d : IndexEntry D)
    (hs : resolveTag src srcRef = some e) (hd : resolveTag dest destRef = some d) :
    ociCopy E src dest srcRef destRef = .error .destExists := by
  unfold ociCopy
  simp only [hs, hd]

/-- C8 counterexample: when the source tag does not resolve, `Copy`
returns the "source tag not found" error even though the destination tag
already exists, so the claim's unconditional "returns a destination tag
already exists error" fails at this input (no transfer happens either
way). -/
theorem copy_conflict_claim_cex :
    (resolveTag gcStore ((r"a").data)).isSome = true
    ∧ ociCopy toyEnv (⟨[], []⟩ : Store Nat) gcStore ((r"x").data) ((r"a").data)
        = .error .srcNotFound
    ∧ ¬ ociCopy toyEnv (⟨[], []⟩ : Store Nat) gcStore ((r"x").data) ((r"a").data)
        = .error .destExists := by
  have h1 : ociCopy toyEnv (⟨[], []⟩ : Store Nat) gcStore ((r"x").data) ((r"a").data)
      = .error .srcNotFound := by
    unfold ociCopy
    simp [resolveTag]
  refine ⟨by decide, h1, ?_⟩
  rw [h1]
  intro h
  injection h with h2
  exact absurd h2 (by decide)

/-- Witness for C8's amended theorem: copying `a` onto the existing tag
`b` in the same repository is refused with the conflict error. -/
theorem copy_conflict_witness :
    ociCopy toyEnv gcStore gcStore ((r"a").data) ((r"b").data)
      = .error .destExists :=
  copy_conflict toyEnv gcStore gcStore ((r"a").data) ((r"b").data)
    ⟨MediaTypeImageManifest, artifactTypeMFT, 675, (r"a").data⟩
    ⟨MediaTypeImageManifest, artifactTypeMFT, 675, (r"b").data⟩
    (by decide) (by decide)

theorem verifyLoop_ok_iff {D : Type} [DecidableEq D] (E : Env D) (keys : List Nat)
    (st : Store D) (d : D) (L : List (Descriptor D)) (found : Bool) :
    verifyLoop E keys st d L found = .ok ↔
      ∃ p ∈ L, ∃ sig, tryExtractSignature st p = .sigOk sig
        ∧ ∃ k ∈ keys, verifySignatureM E k d sig = true := by
  induction L generalizing found with
  | nil => cases found <;> simp [verifyLoop]
  | cons p ps ih =>
    cases hx : tryExtractSignature st p with
    | notSig =>
      have hstep : verifyLoop E keys st d (p :: ps) found
          = verifyLoop E keys st d ps found := by
        conv_lhs => unfold verifyLoop
        rw [hx]
      rw [hstep, ih]
      constructor
      · rintro ⟨q, hq, hrest⟩
        exact ⟨q, List.mem_cons_of_mem _ hq, hrest⟩
      · rintro ⟨q, hq, sig, hsig, hkeys⟩
        rcases List.mem_cons.mp hq with rfl | hq2
        · rw [hx] at hsig
          exact absurd hsig (by simp)
        · exact ⟨q, hq2, sig, hsig, hkeys⟩
    | sigErr =>
      have hstep : verifyLoop E keys st d (p :: ps) found
          = verifyLoop E keys st d ps true := by
        conv_lhs => unfold verifyLoop
        rw [hx]
      rw [hstep, ih]
      constructor
      · rintro ⟨q, hq, hrest⟩
        exact ⟨q, List.mem_cons_of_mem _ hq, hrest⟩
      · rintro ⟨q, hq, sig, hsig, hkeys⟩
        rcases List.mem_cons.mp hq with rfl | hq2
        · rw [hx] at hsig
          exact absurd hsig (by simp)
        · exact ⟨q, hq2, sig, hsig, hkeys⟩
    | sigOk sig =>
      have hstep : verifyLoop E keys st d (p :: ps) found
          = if keys.any (fun k => verifySignatureM E k d sig) then .ok
            else verifyLoop E keys st d ps true := by
        conv_lhs => unfold verifyLoop
        rw [hx]
      by_cases hk : keys.any (fun k => verifySignatureM E k d sig) = true
      · rw [hstep, if_pos hk]
        constructor
        · intro _
          rcases List.any_eq_true.mp hk with ⟨k, hk1, hk2⟩
          exact ⟨p, List.mem_cons_self _ _, sig, hx, k, hk1, hk2⟩
        · intro _
          rfl
      · rw [hstep, if_neg hk, ih]
        constructor
        · rintro ⟨q, hq, hrest⟩
          exact ⟨q, List.mem_cons_of_mem _ hq, hrest⟩
        · rintro ⟨q, hq, sig2, hsig2, k, hk1, hk2⟩
          rcases List.mem_cons.mp hq with rfl | hq2
          · rw [hx] at hsig2
            have hs : sig2 = sig := by
              injection hsig2 with h
              exact h.symm
            subst hs
            exact absurd (List.any_eq_true.mpr ⟨k, hk1, hk2⟩) hk
          · exact ⟨q, hq2, sig2, hsig2, k, hk1, hk2⟩

theorem verifyLoop_noSig_iff {D : Type} [DecidableEq D] (E : Env D) (keys : List Nat)
    (st : Store D) (d : D) (L : List (Descriptor D)) (found : Bool) :
    verifyLoop E keys st d L found = .noSignature ↔
      (found = false ∧ ∀ p ∈ L, tryExtractSignature st p = .notSig) := by
  induction L generalizing found with
  | nil => cases found <;> simp [verifyLoop]
  | cons p ps ih =>
    cases hx : tryExtractSignature st p with
    | notSig =>
      have hstep : verifyLoop E keys st d (p :: ps) found
          = verifyLoop E keys st d ps found := by
        conv_lhs => unfold verifyLoop
        rw [hx]
      rw [hstep, ih]
      constructor
      · rintro ⟨hf, hall⟩
        refine ⟨hf, ?_⟩
        intro q hq
        rcases List.mem_cons.mp hq with rfl | hq2
        · exact hx
        · exact hall q hq2
      · rintro ⟨hf, hall⟩
        exact ⟨hf, fun q hq => hall q (List.mem_cons_of_mem _ hq)⟩
    | sigErr =>
      have hstep : verifyLoop E keys st d (p :: ps) found
          = verifyLoop E keys st d ps true := by
        conv_lhs => unfold verifyLoop
        rw [hx]
      rw [hstep, ih]
      constructor
      · rintro ⟨hf, _⟩
        exact absurd hf (by simp)
      · rintro ⟨_, hall⟩
        have := hall p (List.mem_cons_self _ _)
        rw [hx] at this
        exact absurd this (by simp)
    | sigOk sig =>
      have hstep : verifyLoop E keys st d (p :: ps) found
          = if keys.any (fun k => verifySignatureM E k d sig) then .ok
            else verifyLoop E keys st d ps true := by
        conv_lhs => unfold verifyLoop
        rw [hx]
      rw [hstep]
      by_cases hk : keys.any (fun k => verifySignatureM E k d sig) = true
      · rw [if_pos hk]
        constructor
        · intro h
          exact absurd h (by simp)
        · rintro ⟨_, hall⟩
          have := hall p (List.mem_cons_self _ _)
          rw [hx] at this
          exact absurd this (by simp)
      · rw [if_neg hk, ih]
        constructor
        · rintro ⟨hf, _⟩
          exact absurd hf (by simp)
        · rintro ⟨_, hall⟩
          have := hall p (List.mem_cons_self _ _)
          rw [hx] at this
          exact absurd this (by simp)

theorem verifyLoop_three {D : Type} [DecidableEq D] (E : Env D) (keys : List Nat)
    (st : Store D) (d : D) (L : List (Descriptor D)) (found : Bool) :
    verifyLoop E keys st d L found = .ok
    ∨ verifyLoop E keys st d L found = .noSignature
    ∨ verifyLoop E keys st d L found = .verificationFailed := by
  induction L generalizing found with
  | nil => cases found <;> simp [verifyLoop]
  | cons p ps ih =>
    cases hx : tryExtractSignature st p with
    | notSig =>
      have hstep : verifyLoop E keys st d (p :: ps) found
          = verifyLoop E keys st d ps found := by
        conv_lhs => unfold verifyLoop
        rw [hx]
      rw [hstep]
      exact ih found
    | sigErr =>
      have hstep : verifyLoop E keys st d (p :: ps) found
          = verifyLoop E keys st d ps true := by
        conv_lhs => unfold verifyLoop
        rw [hx]
      rw [hstep]
      exact ih true
    | sigOk sig =>
      have hstep : verifyLoop E keys st d (p :: ps) found
          = if keys.any (fun k => verifySignatureM E k d sig) then .ok
            else verifyLoop E keys st d ps true := by
        conv_lhs => unfold verifyLoop
        rw [hx]
      rw [hstep]
      by_cases hk : keys.any (fun k => verifySignatureM E k d sig) = true
      · rw [if_pos hk]
        exact Or.inl rfl
      · rw [if_neg hk]
        exact ih true

theorem mem_discoveredSigs {D : Type} [DecidableEq D] (st : Store D) (d : D)
    (sig : Bytes) :
    sig ∈ discoveredSigs st d ↔
      ∃ p ∈ predecessorsOf st d, tryExtractSignature st p = .sigOk sig := by
  unfold discoveredSigs
  rw [List.mem_filterMap]
  constructor
  · rintro ⟨p, hp, he⟩
    refine ⟨p, hp, ?_⟩
    cases hx : tryExtractSignature st p with
    | notSig => rw [hx] at he; simp at he
    | sigErr => rw [hx] at he; simp at he
    | sigOk s =>
      rw [hx] at he
      have hss : s = sig := by injection he
      exact congrArg ExtractResult.sigOk hss
  · rintro ⟨p, hp, hx⟩
    exact ⟨p, hp, by rw [hx]⟩

theorem resolveTag_addRootEntry {D : Type} [DecidableEq D] (st : Store D)
    (mt at_ : Str) (d : D) (tag : Str) (htag : ¬ tag = []) :
    resolveTag (addRootEntry st mt at_ d) tag = resolveTag st tag := by
  unfold addRootEntry
  by_cases hp : st.index.any (fun e => decide (e.digest = d)) = true
  · rw [if_pos hp]
  · rw [if_neg hp]
    unfold resolveTag
    simp only [List.reverse_append, List.reverse_cons, List.reverse_nil,
      List.nil_append, List.singleton_append, List.find?]
    have : (decide ((⟨mt, at_, d, []⟩ : IndexEntry D).refName = tag)) = false := by
      simp only [decide_eq_false_iff_not]
      intro h
      exact htag h.symm
    rw [this]

theorem signOp_resolved {D : Type} [DecidableEq D] (E : Env D) (key : Nat)
    (st : Store D) (tag : Str) (rand : Nat) (createdAt : Str) (e : IndexEntry D)
    (hres : resolveTag st tag = some e) :
    signOp E key st tag rand createdAt
      = some
          (addRootEntry
            (pushBlob E
              (pushBlob E (pushBlob E st (.bytes (signDigest E key e.digest rand)))
                (.bytes emptyJsonBytes))
              (.manifest (signatureManifest E e key rand createdAt)))
            MediaTypeImageManifest SignatureArtifactType
            (E.dg (.manifest (signatureManifest E e key rand createdAt))),
          E.dg (.manifest (signatureManifest E e key rand createdAt))) := by
  unfold signOp packManifest signatureManifest
  simp only [hres]
  rfl

theorem index_pushBlob {D : Type} [DecidableEq D] (E : Env D) (st : Store D)
    (c : Content D) : (pushBlob E st c).index = st.index := by
  unfold pushBlob
  split <;> rfl

theorem resolveTag_pushBlob {D : Type} [DecidableEq D] (E : Env D) (st : Store D)
    (c : Content D) (tag : Str) :
    resolveTag (pushBlob E st c) tag = resolveTag st tag := by
  unfold resolveTag
  rw [index_pushBlob]

theorem addRootEntry_index_not_any {D : Type} [DecidableEq D] (st : Store D)
    (mt at_ : Str) (d : D)
    (h : (st.index.any (fun e => decide (e.digest = d))) = false) :
    (addRootEntry st mt at_ d).index = st.index ++ [⟨mt, at_, d, []⟩] := by
  unfold addRootEntry
  rw [if_neg (by rw [h]; exact Bool.false_ne_true)]

/-- C2: `Verify` succeeds exactly when at least one supplied public key
validates at least one discovered signature — a disjunction across both
the discovered signatures and the key list; in particular, after `Sign`
with a private key whose public key appears anywhere in the supplied
list, `Verify` succeeds (given genuine digests: the fresh signature blob
and signature manifest do not collide with existing content, and ECDSA
verification accepts the signature the key produced). -/
theorem verify_multikey {D : Type} [DecidableEq D] (E : Env D) (keys : List Nat)
    (st : Store D) (tag : Str) (e : IndexEntry D)
    (hres : resolveTag st tag = some e) (htag : ¬ tag = []) :
    (verifyOp E keys st tag = .ok ↔
      ∃ sig ∈ discoveredSigs st e.digest, ∃ k ∈ keys,
        verifySignatureM E k e.digest sig = true)
    ∧ (∀ (key rand : Nat) (createdAt : Str) (st1 : Store D) (res : D),
        signOp E key st tag rand createdAt = some (st1, res) →
        E.pubOf key ∈ keys →
        E.ecdsaVerifyASN1 (E.pubOf key) (E.sha256 (E.digestText e.digest))
          (E.ecdsaSignASN1 key (E.sha256 (E.digestText e.digest)) rand) = true →
        lookupBlob st (E.dg (.bytes (signDigest E key e.digest rand))) = none →
        lookupBlob st (E.dg (.manifest (signatureManifest E e key rand createdAt)))
          = none →
        ¬ E.dg (.manifest (signatureManifest E e key rand createdAt))
            = E.dg (.bytes (signDigest E key e.digest rand)) →
        ¬ E.dg (.manifest (signatureManifest E e key rand createdAt))
            = E.dg (.bytes emptyJsonBytes) →
        (∀ en ∈ st.index,
          ¬ en.digest = E.dg (.manifest (signatureManifest E e key rand createdAt))) →
        verifyOp E keys st1 tag = .ok) := by
  have hgen : ∀ (st2 : Store D) (e2 : IndexEntry D),
      resolveTag st2 tag = some e2 →
      (verifyOp E keys st2 tag = .ok ↔
        ∃ sig ∈ discoveredSigs st2 e2.digest, ∃ k ∈ keys,
          verifySignatureM E k e2.digest sig = true) := by
    intro st2 e2 hres2
    unfold verifyOp
    by_cases hk : keys.isEmpty = true
    · rw [if_pos hk]
      have hkeys : keys = [] := List.isEmpty_iff.mp hk
      subst hkeys
      constructor
      · intro h
        exact absurd h (by simp)
      · rintro ⟨sig, _, k, hk2, _⟩
        exact absurd hk2 (List.not_mem_nil k)
    · rw [if_neg hk, hres2]
      have hloop := verifyLoop_ok_iff E keys st2 e2.digest
        (predecessorsOf st2 e2.digest) false
      refine Iff.trans hloop ?_
      constructor
      · rintro ⟨p, hp, sig, hsig, k, hk1, hk2⟩
        exact ⟨sig, (mem_discoveredSigs st2 e2.digest sig).mpr ⟨p, hp, hsig⟩, k, hk1, hk2⟩
      · rintro ⟨sig, hs, k, hk1, hk2⟩
        rcases (mem_discoveredSigs st2 e2.digest sig).mp hs with ⟨p, hp, hsig⟩
        exact ⟨p, hp, sig, hsig, k, hk1, hk2⟩
  constructor
  · exact hgen st e hres
  · intro key rand createdAt st1 res hsign hkmem hcv hLkS hLkM hne1 hne2 hidx
    rw [signOp_resolved E key st tag rand createdAt e hres] at hsign
    injection hsign with hpair
    injection hpair with h1 h2
    have hany : (((pushBlob E
          (pushBlob E (pushBlob E st (.bytes (signDigest E key e.digest rand)))
            (.bytes emptyJsonBytes))
          (.manifest (signatureManifest E e key rand createdAt))).index.any
        (fun en => decide (en.digest
          = E.dg (.manifest (signatureManifest E e key rand createdAt)))))) = false := by
      rw [index_pushBlob, index_pushBlob, index_pushBlob]
      rw [List.any_eq_false]
      intro en hen
      simp only [decide_eq_true_eq]
      exact hidx en hen
    have hidxSA : st1.index
        = st.index ++ [⟨MediaTypeImageManifest, SignatureArtifactType,
            E.dg (.manifest (signatureManifest E e key rand createdAt)), []⟩] := by
      rw [← h1]
      rw [addRootEntry_index_not_any _ _ _ _ hany]
      rw [index_pushBlob, index_pushBlob, index_pushBlob]
    have hblobM : lookupBlob st1
        (E.dg (.manifest (signatureManifest E e key rand createdAt)))
        = some (.manifest (signatureManifest E e key rand createdAt)) := by
      rw [← h1]
      rw [lookupBlob_addRootEntry]
      apply lookupBlob_push_fresh
      rw [lookupBlob_push_ne _ _ _ _ hne2, lookupBlob_push_ne _ _ _ _ hne1]
      exact hLkM
    have hblobS : lookupBlob st1 (E.dg (.bytes (signDigest E key e.digest rand)))
        = some (.bytes (signDigest E key e.digest rand)) := by
      rw [← h1]
      rw [lookupBlob_addRootEntry]
      apply lookupBlob_push_mono
      apply lookupBlob_push_mono
      exact lookupBlob_push_fresh E st _ hLkS
    have hresSA : resolveTag st1 tag = some e := by
      rw [← h1]
      rw [resolveTag_addRootEntry _ _ _ _ _ htag]
      rw [resolveTag_pushBlob, resolveTag_pushBlob, resolveTag_pushBlob]
      exact hres
    have hp : (⟨MediaTypeImageManifest,
        E.dg (.manifest (signatureManifest E e key rand createdAt)),
        SignatureArtifactType⟩ : Descriptor D) ∈ predecessorsOf st1 e.digest := by
      unfold predecessorsOf
      apply List.mem_filterMap.mpr
      refine ⟨⟨MediaTypeImageManifest, SignatureArtifactType,
        E.dg (.manifest (signatureManifest E e key rand createdAt)), []⟩, ?_, ?_⟩
      · rw [hidxSA]
        exact List.mem_append.mpr (Or.inr (List.mem_cons_self _ _))
      · rw [hblobM]
        simp [signatureManifest, descriptorOf]
    have hext : tryExtractSignature st1
        (⟨MediaTypeImageManifest,
          E.dg (.manifest (signatureManifest E e key rand createdAt)),
          SignatureArtifactType⟩ : Descriptor D)
        = .sigOk (signDigest E key e.digest rand) := by
      unfold tryExtractSignature
      rw [hblobM]
      simp [signatureManifest, hblobS]
    have hvk : verifySignatureM E (E.pubOf key) e.digest
        (signDigest E key e.digest rand) = true := hcv
    exact (hgen st1 e hresSA).mpr
      ⟨signDigest E key e.digest rand,
       (mem_discoveredSigs st1 e.digest _).mpr ⟨_, hp, hext⟩,
       E.pubOf key, hkmem, hvk⟩

/-- Witness for C2: signing tag `a` in the two-tag store with private key
handle 5 and then verifying with the key list `[1, 1005]` — whose second
element is the matching public key — succeeds. -/
theorem verify_multikey_witness :
    ∃ st1 res,
      signOp toyEnv 5 gcStore ((r"a").data) 0 ((r"t").data) = some (st1, res)
      ∧ verifyOp toyEnv [1, 1005] st1 ((r"a").data) = .ok := by
  refine ⟨_, _, rfl, ?_⟩
  exact (verify_multikey toyEnv [1, 1005] gcStore ((r"a").data)
      ⟨MediaTypeImageManifest, artifactTypeMFT, 675, (r"a").data⟩
      (by decide) (by decide)).2
    5 0 ((r"t").data) _ _ rfl (by decide) (by decide) (by decide) (by decide)
    (by decide) (by decide) (by decide)

/-- C4: with keys available and the tag resolved, `Verify` reports the
NotFound-style "no signature" error exactly when no predecessor is
signature-typed (judged on the descriptor's artifact type with the
manifest-body fallback, as `tryExtractSignature` does), and reports the
distinct VerificationFailed error — never the NotFound one — when at
least one signature-typed predecessor exists but no (signature, key) pair
validates. -/
theorem verify_error_taxonomy {D : Type} [DecidableEq D] (E : Env D)
    (keys : List Nat) (st : Store D) (tag : Str) (e : IndexEntry D)
    (hk : ¬ keys = []) (hres : resolveTag st tag = some e) :
    ((∀ p ∈ predecessorsOf st e.digest, tryExtractSignature st p = .notSig) →
      verifyOp E keys st tag = .noSignature)
    ∧ ((∃ p ∈ predecessorsOf st e.digest, ¬ tryExtractSignature st p = .notSig) →
      (∀ sig ∈ discoveredSigs st e.digest, ∀ k ∈ keys,
        verifySignatureM E k e.digest sig = false) →
      verifyOp E keys st tag = .verificationFailed) := by
  have hke : keys.isEmpty = false := by
    cases keys with
    | nil => exact absurd rfl hk
    | cons a l => rfl
  have hv : verifyOp E keys st tag
      = verifyLoop E keys st e.digest (predecessorsOf st e.digest) false := by
    unfold verifyOp
    rw [if_neg (by rw [hke]; exact Bool.false_ne_true), hres]
  constructor
  · intro hall
    rw [hv]
    exact (verifyLoop_noSig_iff E keys st e.digest _ false).mpr ⟨rfl, hall⟩
  · rintro ⟨p, hp, hnot⟩ hnoval
    rw [hv]
    rcases verifyLoop_three E keys st e.digest (predecessorsOf st e.digest) false
      with h | h | h
    · rcases (verifyLoop_ok_iff E keys st e.digest _ false).mp h
        with ⟨q, hq, sig, hsig, k, hk1, hk2⟩
      have hmem : sig ∈ discoveredSigs st e.digest :=
        (mem_discoveredSigs st e.digest sig).mpr ⟨q, hq, hsig⟩
      have hcontra := hnoval sig hmem k hk1
      rw [hk2] at hcontra
      exact absurd hcontra (by simp)
    · rcases (verifyLoop_noSig_iff E keys st e.digest _ false).mp h with ⟨_, hall⟩
      exact absurd (hall p hp) hnot
    · exact h

/-- Witness for C4: an unsigned manifest gives the "no signature" outcome;
a signed one verified against only the non-matching key handle 1 gives
VerificationFailed. -/
theorem verify_error_taxonomy_witness :
    verifyOp toyEnv [1] gcStore ((r"a").data) = .noSignature
    ∧ ∃ st1 res,
        signOp toyEnv 5 gcStore ((r"a").data) 0 ((r"t").data) = some (st1, res)
        ∧ verifyOp toyEnv [1] st1 ((r"a").data) = .verificationFailed := by
  constructor
  · exact (verify_error_taxonomy toyEnv [1] gcStore ((r"a").data)
      ⟨MediaTypeImageManifest, artifactTypeMFT, 675, (r"a").data⟩
      (by decide) (by decide)).1 (by decide)
  · refine ⟨_, _, rfl, ?_⟩
    exact (verify_error_taxonomy toyEnv [1] _ ((r"a").data)
      ⟨MediaTypeImageManifest, artifactTypeMFT, 675, (r"a").data⟩
      (by decide) (by decide)).2 (by decide) (by decide)

/-- C3: `Sign` signs the textual representation of the resolved
descriptor's digest — the signature bytes are the ECDSA signature over
SHA-256 of that string, not of the manifest's raw bytes — stores those
bytes as a new blob, stores a signature manifest whose artifactType is
the fixed signature type, whose subject is the resolved descriptor and
whose single layer is the signature blob, and returns the signature
manifest's own digest (given genuine digests: the fresh blobs do not
collide with existing content). -/
theorem signer_sign_spec {D : Type} [DecidableEq D] (E : Env D) (key : Nat)
    (st : Store D) (tag : Str) (rand : Nat) (createdAt : Str) (e : IndexEntry D)
    (hres : resolveTag st tag = some e)
    (hLkS : lookupBlob st (E.dg (.bytes (signDigest E key e.digest rand))) = none)
    (hLkM : lookupBlob st
      (E.dg (.manifest (signatureManifest E e key rand createdAt))) = none)
    (hne1 : ¬ E.dg (.manifest (signatureManifest E e key rand createdAt))
        = E.dg (.bytes (signDigest E key e.digest rand)))
    (hne2 : ¬ E.dg (.manifest (signatureManifest E e key rand createdAt))
        = E.dg (.bytes emptyJsonBytes)) :
    ∃ st1, signOp E key st tag rand createdAt
        = some (st1, E.dg (.manifest (signatureManifest E e key rand createdAt)))
      ∧ signDigest E key e.digest rand
          = E.ecdsaSignASN1 key (E.sha256 (E.digestText e.digest)) rand
      ∧ lookupBlob st1 (E.dg (.bytes (signDigest E key e.digest rand)))
          = some (.bytes (signDigest E key e.digest rand))
      ∧ lookupBlob st1 (E.dg (.manifest (signatureManifest E e key rand createdAt)))
          = some (.manifest (signatureManifest E e key rand createdAt))
      ∧ (signatureManifest E e key rand createdAt).artifactType = SignatureArtifactType
      ∧ (signatureManifest E e key rand createdAt).subject = some (descriptorOf e)
      ∧ (signatureManifest E e key rand createdAt).layers
          = [⟨SignatureMediaType, E.dg (.bytes (signDigest E key e.digest rand)), []⟩]
    := by
  refine ⟨_, signOp_resolved E key st tag rand createdAt e hres, rfl, ?_, ?_, rfl, rfl,
    rfl⟩
  · rw [lookupBlob_addRootEntry]
    apply lookupBlob_push_mono
    apply lookupBlob_push_mono
    exact lookupBlob_push_fresh E st _ hLkS
  · rw [lookupBlob_addRootEntry]
    apply lookupBlob_push_fresh
    rw [lookupBlob_push_ne _ _ _ _ hne2, lookupBlob_push_ne _ _ _ _ hne1]
    exact hLkM

/-- Witness for C3 at the two-tag store with private key handle 5. -/
theorem signer_sign_spec_witness :
    resolveTag gcStore ((r"a").data)
      = some ⟨MediaTypeImageManifest, artifactTypeMFT, 675, (r"a").data⟩
    ∧ ∃ st1, signOp toyEnv 5 gcStore ((r"a").data) 0 ((r"t").data)
        = some (st1, toyEnv.dg (.manifest (signatureManifest toyEnv
            ⟨MediaTypeImageManifest, artifactTypeMFT, 675, (r"a").data⟩ 5 0
            ((r"t").data))))
      ∧ signDigest toyEnv 5 675 0
          = toyEnv.ecdsaSignASN1 5 (toyEnv.sha256 (toyEnv.digestText 675)) 0
      ∧ lookupBlob st1 (toyEnv.dg (.bytes (signDigest toyEnv 5 675 0)))
          = some (.bytes (signDigest toyEnv 5 675 0))
      ∧ lookupBlob st1 (toyEnv.dg (.manifest (signatureManifest toyEnv
            ⟨MediaTypeImageManifest, artifactTypeMFT, 675, (r"a").data⟩ 5 0
            ((r"t").data))))
          = some (.manifest (signatureManifest toyEnv
            ⟨MediaTypeImageManifest, artifactTypeMFT, 675, (r"a").data⟩ 5 0
            ((r"t").data)))
      ∧ (signatureManifest toyEnv
            ⟨MediaTypeImageManifest, artifactTypeMFT, 675, (r"a").data⟩ 5 0
            ((r"t").data)).artifactType = SignatureArtifactType
      ∧ (signatureManifest toyEnv
            ⟨MediaTypeImageManifest, artifactTypeMFT, 675, (r"a").data⟩ 5 0
            ((r"t").data)).subject
          = some (descriptorOf
              ⟨MediaTypeImageManifest, artifactTypeMFT, 675, (r"a").data⟩)
      ∧ (signatureManifest toyEnv
            ⟨MediaTypeImageManifest, artifactTypeMFT, 675, (r"a").data⟩ 5 0
            ((r"t").data)).layers
          = [⟨SignatureMediaType, toyEnv.dg (.bytes (signDigest toyEnv 5 675 0)),
              []⟩] :=
  ⟨by decide,
   signer_sign_spec toyEnv 5 gcStore ((r"a").data) 0 ((r"t").data)
     ⟨MediaTypeImageManifest, artifactTypeMFT, 675, (r"a").data⟩
     (by decide) (by decide) (by decide) (by decide) (by decide)⟩

theorem copyWork_nil {D : Type} [DecidableEq D] (E : Env D) (src : Store D)
    (fuel : Nat) (dest : Store D) : copyWork E src fuel dest [] = some dest := by
  cases fuel <;> rfl

theorem copyWork_step_push {D : Type} [DecidableEq D] (E : Env D) (src : Store D)
    (fuel : Nat) (dest : Store D) (desc : Descriptor D) (rest : List (Descriptor D))
    (c : Content D)
    (h1 : lookupBlob dest desc.digest = none)
    (h2 : lookupBlob src desc.digest = some c)
    (h3 : E.dg c = desc.digest) :
    copyWork E src (fuel + 1) dest (desc :: rest)
      = copyWork E src fuel (pushNode E dest desc c) (successorDescs c ++ rest) := by
  conv_lhs => unfold copyWork
  rw [h1]
  simp only [Option.isSome_none, Bool.false_eq_true, if_false]
  rw [h2]
  simp only [if_pos h3]

theorem newFileStore_eq {D : Type} [DecidableEq D] (E : Env D) (f : Bytes)
    (title tag createdAt : Str)
    (hFC : ¬ E.dg (.bytes f) = E.dg (.bytes emptyJsonBytes))
    (hFM : ¬ E.dg (.bytes f) = E.dg (.manifest (packedManifest E f title createdAt)))
    (hCM : ¬ E.dg (.bytes emptyJsonBytes)
        = E.dg (.manifest (packedManifest E f title createdAt))) :
    newFileStore E f title tag createdAt
      = ⟨[⟨MediaTypeImageManifest, artifactTypeMFT,
            E.dg (.manifest (packedManifest E f title createdAt)), tag⟩],
         [(E.dg (.bytes f), .bytes f),
          (E.dg (.bytes emptyJsonBytes), .bytes emptyJsonBytes),
          (E.dg (.manifest (packedManifest E f title createdAt)),
           .manifest (packedManifest E f title createdAt))]⟩ := by
  have htc : ¬ titleKey = createdKey := by decide
  have hFM2 : ¬ E.dg (.manifest (packedManifest E f title createdAt))
      = E.dg (.bytes f) := fun h => hFM h.symm
  have hCM2 : ¬ E.dg (.manifest (packedManifest E f title createdAt))
      = E.dg (.bytes emptyJsonBytes) := fun h => hCM h.symm
  simp only [packedManifest] at hFM hCM hFM2 hCM2
  unfold newFileStore packManifest tagManifest addRootEntry pushBlob lookupBlob
    lookupBlobL packedManifest
  simp [List.find?, List.filter, hFC, hFM, hCM, hFM2, hCM2, htc]

/-- C5: `Save(f)` followed by `Dump(tag)` on the same repository returns
content byte-identical to `f`, for arbitrary byte content and an
arbitrary prior repository state — given genuine content addressing (the
file's digest, the empty-config digest and the packed manifest's digest
are pairwise distinct and not already present in the repository). -/
theorem save_dump_roundtrip {D : Type} [DecidableEq D] (E : Env D) (st : Store D)
    (f : Bytes) (title tag createdAt : Str)
    (hFC : ¬ E.dg (.bytes f) = E.dg (.bytes emptyJsonBytes))
    (hFM : ¬ E.dg (.bytes f) = E.dg (.manifest (packedManifest E f title createdAt)))
    (hCM : ¬ E.dg (.bytes emptyJsonBytes)
        = E.dg (.manifest (packedManifest E f title createdAt)))
    (hstF : lookupBlob st (E.dg (.bytes f)) = none)
    (hstC : lookupBlob st (E.dg (.bytes emptyJsonBytes)) = none)
    (hstM : lookupBlob st (E.dg (.manifest (packedManifest E f title createdAt)))
        = none) :
    ∃ st1, saveOp E st f title tag createdAt = some st1
      ∧ dumpOp st1 tag = .ok (.bytes f) := by
  have hfs := newFileStore_eq E f title tag createdAt hFC hFM hCM
  set mf := packedManifest E f title createdAt with hmf
  set dF := E.dg (Content.bytes f) with hdF
  set dC := E.dg (Content.bytes emptyJsonBytes) with hdC
  set dM := E.dg (Content.manifest mf) with hdM
  have hCM2 : ¬ dC = dF := fun h => hFC h.symm
  -- source-store fetches
  have hsrcM : lookupBlob (newFileStore E f title tag createdAt) dM
      = some (.manifest mf) := by
    rw [hfs]
    simp [lookupBlob, lookupBlobL, List.find?, hFM, hCM]
  have hsrcC : lookupBlob (newFileStore E f title tag createdAt) dC
      = some (.bytes emptyJsonBytes) := by
    rw [hfs]
    simp [lookupBlob, lookupBlobL, List.find?, hFC]
  have hsrcF : lookupBlob (newFileStore E f title tag createdAt) dF
      = some (.bytes f) := by
    rw [hfs]
    simp [lookupBlob, lookupBlobL, List.find?]
  -- destination-side lookups along the transfer
  have hS1M : lookupBlob (addRootEntry (pushBlob E st (Content.manifest mf))
      MediaTypeImageManifest artifactTypeMFT dM) dM = some (.manifest mf) := by
    rw [lookupBlob_addRootEntry]
    exact lookupBlob_push_fresh E st _ hstM
  have hS1C : lookupBlob (addRootEntry (pushBlob E st (Content.manifest mf))
      MediaTypeImageManifest artifactTypeMFT dM) dC = none := by
    rw [lookupBlob_addRootEntry, lookupBlob_push_ne E st _ _ hCM]
    exact hstC
  have hS1F : lookupBlob (addRootEntry (pushBlob E st (Content.manifest mf))
      MediaTypeImageManifest artifactTypeMFT dM) dF = none := by
    rw [lookupBlob_addRootEntry, lookupBlob_push_ne E st _ _ hFM]
    exact hstF
  have hS2F : lookupBlob (pushBlob E (addRootEntry (pushBlob E st (Content.manifest mf))
      MediaTypeImageManifest artifactTypeMFT dM) (Content.bytes emptyJsonBytes)) dF
      = none := by
    rw [lookupBlob_push_ne _ _ _ _ hFC]
    exact hS1F
  have hS2M : lookupBlob (pushBlob E (addRootEntry (pushBlob E st (Content.manifest mf))
      MediaTypeImageManifest artifactTypeMFT dM) (Content.bytes emptyJsonBytes)) dM
      = some (.manifest mf) :=
    lookupBlob_push_mono E _ _ _ _ hS1M
  have hS3F : lookupBlob (pushBlob E (pushBlob E (addRootEntry
      (pushBlob E st (Content.manifest mf)) MediaTypeImageManifest artifactTypeMFT dM)
      (Content.bytes emptyJsonBytes)) (Content.bytes f)) dF = some (.bytes f) :=
    lookupBlob_push_fresh E _ _ hS2F
  have hS3M : lookupBlob (pushBlob E (pushBlob E (addRootEntry
      (pushBlob E st (Content.manifest mf)) MediaTypeImageManifest artifactTypeMFT dM)
      (Content.bytes emptyJsonBytes)) (Content.bytes f)) dM = some (.manifest mf) :=
    lookupBlob_push_mono E _ _ _ _ hS2M
  -- the transfer itself
  have hcw : copyWork E (newFileStore E f title tag createdAt) 7 st
      [⟨MediaTypeImageManifest, dM, artifactTypeMFT⟩]
      = some (pushBlob E (pushBlob E (addRootEntry (pushBlob E st (Content.manifest mf))
          MediaTypeImageManifest artifactTypeMFT dM) (Content.bytes emptyJsonBytes))
          (Content.bytes f)) := by
    rw [copyWork_step_push E _ 6 st _ [] (.manifest mf) hstM hsrcM rfl]
    rw [show pushNode E st (⟨MediaTypeImageManifest, dM, artifactTypeMFT⟩ : Descriptor D)
        (Content.manifest mf)
        = addRootEntry (pushBlob E st (Content.manifest mf)) MediaTypeImageManifest
            artifactTypeMFT dM from rfl]
    rw [show successorDescs (Content.manifest mf) ++ ([] : List (Descriptor D))
        = [⟨MediaTypeEmptyJSON, dC, []⟩, ⟨contentMediaType, dF, []⟩] from rfl]
    rw [copyWork_step_push E _ 5 _ _ [⟨contentMediaType, dF, []⟩]
      (.bytes emptyJsonBytes) hS1C hsrcC rfl]
    rw [show pushNode E (addRootEntry (pushBlob E st (Content.manifest mf))
        MediaTypeImageManifest artifactTypeMFT dM)
        (⟨MediaTypeEmptyJSON, dC, []⟩ : Descriptor D) (Content.bytes emptyJsonBytes)
        = pushBlob E (addRootEntry (pushBlob E st (Content.manifest mf))
            MediaTypeImageManifest artifactTypeMFT dM) (Content.bytes emptyJsonBytes)
        from rfl]
    rw [show successorDescs (Content.bytes emptyJsonBytes)
        ++ [(⟨contentMediaType, dF, []⟩ : Descriptor D)]
        = [(⟨contentMediaType, dF, []⟩ : Descriptor D)] from rfl]
    rw [copyWork_step_push E _ 4 _ _ [] (.bytes f) hS2F hsrcF rfl]
    rw [show pushNode E (pushBlob E (addRootEntry (pushBlob E st (Content.manifest mf))
        MediaTypeImageManifest artifactTypeMFT dM) (Content.bytes emptyJsonBytes))
        (⟨contentMediaType, dF, []⟩ : Descriptor D) (Content.bytes f)
        = pushBlob E (pushBlob E (addRootEntry (pushBlob E st (Content.manifest mf))
            MediaTypeImageManifest artifactTypeMFT dM) (Content.bytes emptyJsonBytes))
            (Content.bytes f) from rfl]
    exact copyWork_nil E _ 4 _
  have hsave : saveOp E st f title tag createdAt
      = some (tagManifest (pushBlob E (pushBlob E (addRootEntry
          (pushBlob E st (Content.manifest mf)) MediaTypeImageManifest artifactTypeMFT
          dM) (Content.bytes emptyJsonBytes)) (Content.bytes f))
          ⟨MediaTypeImageManifest, dM, artifactTypeMFT⟩ tag) := by
    unfold saveOp orasCopy
    have hrfs : resolveTag (newFileStore E f title tag createdAt) tag
        = some ⟨MediaTypeImageManifest, artifactTypeMFT, dM, tag⟩ := by
      rw [hfs]
      simp [resolveTag, List.find?]
    have hfuel : copyFuel (newFileStore E f title tag createdAt) = 7 := by
      rw [hfs]
      simp [copyFuel, successorDescs, hmf, packedManifest]
    simp only [hrfs, hfuel]
    rw [show descriptorOf (⟨MediaTypeImageManifest, artifactTypeMFT, dM, tag⟩
        : IndexEntry D) = (⟨MediaTypeImageManifest, dM, artifactTypeMFT⟩
        : Descriptor D) from rfl]
    rw [hcw]
    rfl
  refine ⟨_, hsave, ?_⟩
  unfold dumpOp
  rw [resolveTag_tagManifest]
  have hml : mf.layers = [(⟨contentMediaType, dF, []⟩ : Descriptor D)] := rfl
  simp only [lookupBlob_tagManifest, hS3M, hml, hS3F]

/-- Witness for C5: saving the bytes `[1, 2, 3]` under `local/app:v1`
into an empty repository and dumping the same tag returns those bytes. -/
theorem save_dump_roundtrip_witness :
    ∃ st1, saveOp toyEnv (⟨[], []⟩ : Store Nat) [1, 2, 3] ((r"app").data)
        ((r"local/app:v1").data) ((r"t").data) = some st1
      ∧ dumpOp st1 ((r"local/app:v1").data) = .ok (.bytes [1, 2, 3]) :=
  save_dump_roundtrip toyEnv ⟨[], []⟩ [1, 2, 3] ((r"app").data)
    ((r"local/app:v1").data) ((r"t").data)
    (by decide) (by decide) (by decide) (by decide) (by decide) (by decide)

theorem blobs_addRootEntry {D : Type} [DecidableEq D] (st : Store D) (mt at_ : Str)
    (d : D) : (addRootEntry st mt at_ d).blobs = st.blobs := by
  unfold addRootEntry
  split <;> rfl

theorem mem_blobs_pushBlob {D : Type} [DecidableEq D] (E : Env D) (st : Store D)
    (c : Content D) (p : D × Content D) (hp : p ∈ st.blobs) :
    p ∈ (pushBlob E st c).blobs := by
  unfold pushBlob
  split
  · exact hp
  · exact List.mem_append.mpr (Or.inl hp)

theorem mem_blobs_pushNode {D : Type} [DecidableEq D] (E : Env D) (st : Store D)
    (desc : Descriptor D) (c : Content D) (p : D × Content D) (hp : p ∈ st.blobs) :
    p ∈ (pushNode E st desc c).blobs := by
  cases c with
  | bytes bs => exact mem_blobs_pushBlob E st _ p hp
  | manifest m =>
    show p ∈ (addRootEntry (pushBlob E st (.manifest m)) _ _ _).blobs
    rw [blobs_addRootEntry]
    exact mem_blobs_pushBlob E st _ p hp

theorem copyWork_blobs_mono {D : Type} [DecidableEq D] (E : Env D) (src : Store D) :
    ∀ (fuel : Nat) (dest : Store D) (L : List (Descriptor D)) (d1 : Store D),
      copyWork E src fuel dest L = some d1 → ∀ p ∈ dest.blobs, p ∈ d1.blobs := by
  intro fuel
  induction fuel with
  | zero =>
    intro dest L d1 h p hp
    cases L with
    | nil =>
      rw [copyWork_nil] at h
      injection h with h1
      rw [← h1]
      exact hp
    | cons a l =>
      exact absurd h (by rw [show copyWork E src 0 dest (a :: l) = none from rfl]; simp)
  | succ n ih =>
    intro dest L d1 h p hp
    cases L with
    | nil =>
      rw [copyWork_nil] at h
      injection h with h1
      rw [← h1]
      exact hp
    | cons a l =>
      by_cases hskip : (lookupBlob dest a.digest).isSome = true
      · have hs : copyWork E src (n + 1) dest (a :: l) = copyWork E src n dest l := by
          conv_lhs => unfold copyWork
          rw [if_pos hskip]
        rw [hs] at h
        exact ih dest l d1 h p hp
      · cases hf : lookupBlob src a.digest with
        | none =>
          have hs : copyWork E src (n + 1) dest (a :: l) = none := by
            conv_lhs => unfold copyWork
            rw [if_neg hskip, hf]
          rw [hs] at h
          exact absurd h (by simp)
        | some c =>
          by_cases hdg : E.dg c = a.digest
          · have hs : copyWork E src (n + 1) dest (a :: l)
                = copyWork E src n (pushNode E dest a c) (successorDescs c ++ l) := by
              conv_lhs => unfold copyWork
              rw [if_neg hskip, hf]
              exact if_pos hdg
            rw [hs] at h
            exact ih _ _ d1 h p (mem_blobs_pushNode E dest a c p hp)
          · have hs : copyWork E src (n + 1) dest (a :: l) = none := by
              conv_lhs => unfold copyWork
              rw [if_neg hskip, hf]
              exact if_neg hdg
            rw [hs] at h
            exact absurd h (by simp)

/-- C6: when signature verification fails after a pull (including the
no-keys case), the pulled tag's data is deleted exactly when the tag did
not resolve locally before the pull began; when it did, no deletion is
attempted and the post-pull state is returned as is — in particular every
pre-existing blob is still present. -/
theorem pull_verify_rollback {D : Type} [DecidableEq D] (E : Env D) (keys : List Nat)
    (remote st st1 : Store D) (tag : Str)
    (hpull : orasCopy E remote st tag tag = some st1)
    (hverr : keys = [] ∨ ¬ verifyOp E keys st1 tag = .ok) :
    ∃ res, runPullOp E keys remote st tag false = some res
      ∧ res.success = false
      ∧ res.deletedPulled = ! existsLocally st tag
      ∧ (existsLocally st tag = true →
          res.finalState = some st1 ∧ ∀ p ∈ st.blobs, p ∈ st1.blobs) := by
  obtain ⟨e, hre, d1, hcw, hst1⟩ :
      ∃ e, resolveTag remote tag = some e
        ∧ ∃ d1, copyWork E remote (copyFuel remote) st [descriptorOf e] = some d1
          ∧ st1 = tagManifest d1 (descriptorOf e) tag := by
    unfold orasCopy at hpull
    cases hre : resolveTag remote tag with
    | none =>
      rw [hre] at hpull
      exact absurd hpull (by simp)
    | some e =>
      rw [hre] at hpull
      have hpull2 : (copyWork E remote (copyFuel remote) st [descriptorOf e]).map
          (fun x => tagManifest x (descriptorOf e) tag) = some st1 := hpull
      cases hcw : copyWork E remote (copyFuel remote) st [descriptorOf e] with
      | none =>
        rw [hcw] at hpull2
        exact absurd hpull2 (by simp)
      | some d1 =>
        rw [hcw] at hpull2
        have h3 : some (tagManifest d1 (descriptorOf e) tag) = some st1 := hpull2
        injection h3 with h4
        exact ⟨e, rfl, d1, hcw, h4.symm⟩
  have hres1 : resolveTag st1 tag
      = some ⟨(descriptorOf e).mediaType, (descriptorOf e).artifactType,
              (descriptorOf e).digest, tag⟩ := by
    rw [hst1]
    exact resolveTag_tagManifest d1 (descriptorOf e) tag
  have hdel2 : (ociDeleteOp st1 tag).2 = true := by
    unfold ociDeleteOp
    simp only [hres1]
    split <;> rfl
  have hvf : (if keys.isEmpty = true then true
      else (decide (¬ verifyOp E keys st1 tag = VerifyOutcome.ok))) = true := by
    rcases hverr with hk | hv
    · subst hk
      rfl
    · by_cases hke : keys.isEmpty = true
      · rw [if_pos hke]
      · rw [if_neg hke]
        exact decide_eq_true hv
  by_cases hex : existsLocally st tag = true
  · refine ⟨⟨false, false, some st1⟩, ?_, rfl, ?_, ?_⟩
    · unfold runPullOp
      simp only [hpull, Bool.false_eq_true, if_false, hvf, if_true, hex]
    · rw [hex]
      rfl
    · intro _
      refine ⟨rfl, fun p hp => ?_⟩
      rw [hst1]
      exact copyWork_blobs_mono E remote _ st _ d1 hcw p hp
  · refine ⟨⟨false, (ociDeleteOp st1 tag).2, (ociDeleteOp st1 tag).1⟩, ?_, rfl, ?_, ?_⟩
    · unfold runPullOp
      simp only [hpull, Bool.false_eq_true, if_false, hvf, if_true]
      have hexf : existsLocally st tag = false := by
        cases hb : existsLocally st tag with
        | true => exact absurd hb hex
        | false => rfl
      simp only [hexf, Bool.false_eq_true, if_false]
    · have hexf : existsLocally st tag = false := by
        cases hb : existsLocally st tag with
        | true => exact absurd hb hex
        | false => rfl
      rw [hdel2, hexf]
      rfl
    · intro hcontr
      exact absurd hcontr hex

/-- Witness for C6: pulling tag `a` into an empty local store with no
verification keys deletes the pulled data (the tag did not exist before),
while pulling into a store that already has the tag leaves the post-pull
state untouched with every pre-existing blob still present. -/
theorem pull_verify_rollback_witness :
    (∃ st1, orasCopy toyEnv gcStore (⟨[], []⟩ : Store Nat) ((r"a").data) ((r"a").data)
        = some st1
      ∧ ∃ res, runPullOp toyEnv [] gcStore (⟨[], []⟩ : Store Nat) ((r"a").data) false
          = some res
        ∧ res.success = false
        ∧ res.deletedPulled = ! existsLocally (⟨[], []⟩ : Store Nat) ((r"a").data)
        ∧ (existsLocally (⟨[], []⟩ : Store Nat) ((r"a").data) = true →
            res.finalState = some st1
            ∧ ∀ p ∈ (⟨[], []⟩ : Store Nat).blobs, p ∈ st1.blobs))
    ∧ (∃ st1, orasCopy toyEnv gcStore gcStore ((r"a").data) ((r"a").data) = some st1
      ∧ ∃ res, runPullOp toyEnv [] gcStore gcStore ((r"a").data) false = some res
        ∧ res.success = false
        ∧ res.deletedPulled = ! existsLocally gcStore ((r"a").data)
        ∧ (existsLocally gcStore ((r"a").data) = true →
            res.finalState = some st1 ∧ ∀ p ∈ gcStore.blobs, p ∈ st1.blobs)) := by
  constructor
  · refine ⟨_, rfl, ?_⟩
    exact pull_verify_rollback toyEnv [] gcStore ⟨[], []⟩ _ ((r"a").data) rfl
      (Or.inl rfl)
  · refine ⟨_, rfl, ?_⟩
    exact pull_verify_rollback toyEnv [] gcStore gcStore _ ((r"a").data) rfl
      (Or.inl rfl)
